import Mathlib

/-!
Shallow embedding of the kore-ledger digital-twin contract (src/src/lib.rs).

The Rust source implements a versioned "production system" document mutated
by discrete events.  JSON values (serde_json::Value) are modelled by `Value`,
the recursive type language by `DynamicType` / `Fields`, and the contract
entry point `contract_logic` by a pure function threading the draft state
explicitly (the Rust code mutates `contract_result.state` in place; every
mutation performed before an early error return is reproduced faithfully).

Rust HashMaps are modelled as association lists iterated in list order;
the u32 `version` counter is a `Nat` reduced modulo 2^32 at the increment;
error strings are modelled by the inductive `ContractError`, one constructor
per distinct message site in the source.  The dynamic value validator
(`DynamicType::deserialize`) can recurse through the schema map, which for
an adversarial (cyclic) schema does not terminate in Rust either (unbounded
recursion); the embedding makes it total with an explicit fuel parameter,
`ContractError.outOfFuel` marking fuel exhaustion.
-/

/-- Number payload of a JSON value, mirroring serde_json's internal storage:
a non-negative integer, a negative integer, or a float (whose payload is not
modelled; no claim inspects float values, only their JSON kind). -/
inductive JNumber where
  | posInt (n : Nat)
  | negInt (z : Int)
  | float

/-- Semi-structured JSON value (serde_json::Value): objects are association
lists in serde map order. -/
inductive Value where
  | null
  | bool (b : Bool)
  | num (n : JNumber)
  | str (s : String)
  | arr (elems : List Value)
  | obj (fields : List (String × Value))

namespace Value

/-- Mirrors Value::as_str. -/
def asStr : Value → Option String
  | .str s => some s
  | _ => none

/-- Mirrors Value::as_bool. -/
def asBool : Value → Option Bool
  | .bool b => some b
  | _ => none

/-- Mirrors Value::as_u64 (Some exactly for a non-negative integer number). -/
def asU64 : Value → Option Nat
  | .num (.posInt n) => some n
  | _ => none

/-- Mirrors Value::as_i64 (Some for integers representable as i64). -/
def asI64 : Value → Option Int
  | .num (.posInt n) => if n ≤ 9223372036854775807 then some n else none
  | .num (.negInt z) => some z
  | _ => none

/-- Mirrors Value::as_f64 (Some for every JSON number). -/
def asF64 : Value → Bool
  | .num _ => true
  | _ => false

/-- Mirrors Value::is_null. -/
def isNull : Value → Bool
  | .null => true
  | _ => false

end Value

/-- The recursive type-expression language (enum DynamicType in the source).
The source constructor `Type(String)` is spelled `Typ` because `Type` is a
Lean keyword; all other constructor names match the source. -/
inductive DynamicType where
  | String
  | i64
  | u64
  | f64
  | bool
  | Vec (inner : DynamicType)
  | Enum (variants : List (String × DynamicType))
  | Option (inner : DynamicType)
  | Typ (name : String)
  | Dummy

/-- A type definition body (enum Fields in the source): a bare type or a
record of named fields (HashMap modelled as an association list). -/
inductive Fields where
  | Basic (t : DynamicType)
  | Object (fields : List (String × DynamicType))

/-- Schema: the map from custom type name to its definition
(HashMap<String, Fields> as an association list). -/
abbrev SchemaMap := List (String × Fields)

/-- Variant map of an Enum type. -/
abbrev EnumVariants := List (String × DynamicType)

/-- List of referenced custom type names. -/
abbrev NameList := List String

/-- A custom type name. -/
abbrev CTypeName := String

/-- Field list of a JSON object value. -/
abbrev JsonObject := List (String × Value)

/-- First-match lookup in an association list (HashMap::get for maps with
distinct keys). -/
def lookupKey {β : Type} (l : List (String × β)) (k : String) : Option β :=
  match l with
  | [] => none
  | (k', v) :: rest => if k' = k then some v else lookupKey rest k

/-- HashMap::insert: replace the binding if the key is present, else append. -/
def insertKey {β : Type} (l : List (String × β)) (k : String) (v : β) :
    List (String × β) :=
  match l with
  | [] => [(k, v)]
  | (k', v') :: rest =>
      if k' = k then (k, v) :: rest else (k', v') :: insertKey rest k v

/-- HashMap::remove, returning the removed value when present. -/
def removeKey {β : Type} (l : List (String × β)) (k : String) :
    Option (β × List (String × β)) :=
  match l with
  | [] => none
  | (k', v') :: rest =>
      if k' = k then some (v', rest)
      else match removeKey rest k with
        | none => none
        | some (v, rest') => some (v, (k', v') :: rest')

/-- Mirrors DynamicType::is_option. -/
def DynamicType.is_option : DynamicType → Bool
  | .Option _ => true
  | _ => false

/-- Mirrors count_options: (number of fields, number of Option-typed fields). -/
def count_options (m : List (String × DynamicType)) : Nat × Nat :=
  (m.length, (m.filter (fun p => p.2.is_option)).length)

/-- Error vocabulary of the contract: one constructor per distinct error
message site in the source (the Rust code represents errors as message
strings; payloads keep the interpolated identifiers the message names).
`outOfFuel` is the embedding's marker for exhausted recursion fuel in the
dynamic validator, which in Rust is unbounded recursion. -/
inductive ContractError where
  | outOfFuel
  | circularDependency (typeName : String)
  | cannotAddTypesEmpty
  | emptyTypeName
  | reservedTypeName (name : String)
  | cannotAddUnitProcessesEmpty
  | duplicateUnitProcessNames
  | cannotAddPropertiesEmpty
  | duplicatePropertyNames
  | emptyElementTypeName
  | unknownTypeName (name : String)
  | nameMismatch (expected got : String)
  | typeNameMismatch (expected got : String)
  | invalidBasicType
  | emptyObjectFields
  | dummyObjectField (field : String)
  | emptyFieldName
  | expectedString
  | expectedU64
  | expectedF64
  | expectedI64
  | expectedBool
  | expectedArray
  | invalidEnumObject (count : Nat)
  | unknownEnumVariant (variant : String)
  | cannotDeserializeEnum
  | undefinedCustomType (name : String)
  | expectedObjectForType (name : String)
  | fieldCountMismatchType (name : String) (lo hi got : Nat)
  | missingRequiredFieldType (field typeName : String)
  | unexpectedFieldsType (typeName : String)
  | expectedObject
  | fieldCountMismatch (lo hi got : Nat)
  | missingRequiredField (field : String)
  | unexpectedFields
  | dummyDeserialize
  | invalidNestedType
  | emptyEnumVariantName
  | enumVariantOption (variant : String)
  | emptyCustomTypeName
  | undefinedCustomTypeCheck (name : String)
  | unitProcessEmptyName
  | duplicateUnitDataNames (unit : String)
  | duplicateUnitPropertyNames (unit : String)
  | cannotRegisterNoInputsOutputs (unit : String)
  | emptyInputsArray (unit : String)
  | unmatchedInputs (unit : String)
  | emptyOutputsArray (unit : String)
  | unmatchedOutputs (unit : String)
  | emptyPropertiesArray (unit : String)
  | unmatchedProperties (unit : String)
  | emptyPropertyName
  | targetsSetInDefinition (element : String)
  | emptyDataElementName
  | invalidTargetConfiguration (element : String)
  | initWhenVersionNotZero
  | firstEventMustBeInit
  | initEmptyName
  | modifyPSNoParams
  | modifyPSEmptyName
  | deletePropertiesEmptyList
  | deletePropertyNotFound (name : String)
  | modifyPropertiesEmptyList
  | modifyPropertyNotFound (name : String)
  | modifyTypesNoParams
  | deleteTypeNotFound (name : String)
  | modifyUPNoParams
  | deleteUPEmptyList
  | deleteUPNotFound (name : String)
  | modifyUPEmptyList
  | modifyUPNotFound (name : String)
  | registerBeforeInit
  | registerDataEmptyList
  | unitProcessNotFound (name : String)

/-- Reference collection of DynamicType::check_data: the list of custom type
names mentioned (in traversal order) when the static check succeeds.  The
check itself is `DynamicType.check_data` below; this total function computes
the same reference list independently of success, for stating graph
properties. -/
def DynamicType.refs : DynamicType → NameList
  | .Vec t | .Option t => t.refs
  | .Enum variants => refsList variants
  | .Typ c => [c]
  | _ => []
where
  refsList : EnumVariants → NameList
    | [] => []
    | (_, t) :: rest => t.refs ++ refsList rest

mutual

/-- Mirrors DynamicType::check_data: static well-formedness of a type
expression against the (merged) schema, appending each referenced custom
type name to the accumulator. -/
def DynamicType.check_data (t : DynamicType)
    (custom_types : SchemaMap) (internal_types : NameList) :
    Except ContractError NameList :=
  match t with
  | .Vec c | .Option c =>
      match c with
      | .Dummy | .Option _ => .error .invalidNestedType
      | _ => c.check_data custom_types internal_types
  | .Enum enum_type => DynamicType.check_data_list enum_type custom_types internal_types
  | .Typ c =>
      if c = "" then .error .emptyCustomTypeName
      else if (lookupKey custom_types c).isNone then
        .error (.undefinedCustomTypeCheck c)
      else .ok (internal_types ++ [c])
  | _ => .ok internal_types

/-- Loop body of the Enum case of DynamicType::check_data. -/
def DynamicType.check_data_list (l : EnumVariants)
    (custom_types : SchemaMap) (internal_types : NameList) :
    Except ContractError NameList :=
  match l with
  | [] => .ok internal_types
  | (type_field, type_dyn) :: rest =>
      if type_field = "" then .error .emptyEnumVariantName
      else match type_dyn with
        | .Option _ => .error (.enumVariantOption type_field)
        | _ =>
          match type_dyn.check_data custom_types internal_types with
          | .error e => .error e
          | .ok acc => DynamicType.check_data_list rest custom_types acc

end

/-- Loop body of the Object case of Fields::check_data. -/
def Fields.check_data_fields (l : EnumVariants) (custom_types : SchemaMap)
    (internal_types : NameList) : Except ContractError NameList :=
  match l with
  | [] => .ok internal_types
  | (field, c_type) :: rest =>
      match c_type with
      | .Dummy => .error (.dummyObjectField field)
      | _ =>
        if field = "" then .error .emptyFieldName
        else match c_type.check_data custom_types internal_types with
          | .error e => .error e
          | .ok acc => Fields.check_data_fields rest custom_types acc

/-- Mirrors Fields::check_data: static well-formedness of a type definition
body, returning the referenced custom type names. -/
def Fields.check_data (f : Fields) (custom_types : SchemaMap) :
    Except ContractError NameList :=
  match f with
  | .Basic dynamic_type =>
      match dynamic_type with
      | .Dummy | .Option _ | .Typ _ => .error .invalidBasicType
      | _ => dynamic_type.check_data custom_types []
  | .Object hash_map =>
      match hash_map with
      | [] => .error .emptyObjectFields
      | _ => Fields.check_data_fields hash_map custom_types []

mutual

/-- Mirrors DynamicType::deserialize: dynamic conformance of a JSON value
against a type expression.  `fuel` bounds the recursion depth (the Rust
function recurses unboundedly through schema references); every recursive
call runs at the decremented fuel. -/
def DynamicType.deserialize (fuel : Nat) (t : DynamicType) (value : Value)
    (custom_types : SchemaMap) : Except ContractError Unit :=
  match fuel with
  | 0 => .error .outOfFuel
  | fuel + 1 =>
    match t with
    | .String => if value.asStr.isNone then .error .expectedString else .ok ()
    | .u64 => if value.asU64.isNone then .error .expectedU64 else .ok ()
    | .f64 => if value.asF64 = false then .error .expectedF64 else .ok ()
    | .i64 => if value.asI64.isNone then .error .expectedI64 else .ok ()
    | .bool => if value.asBool.isNone then .error .expectedBool else .ok ()
    | .Vec vec_type =>
        match value with
        | .arr vec_dynamic =>
            DynamicType.deserialize_vec fuel vec_type vec_dynamic custom_types
        | _ => .error .expectedArray
    | .Enum enum_type =>
        match value with
        | .obj obj_dynamic =>
            if obj_dynamic.length ≠ 1 then
              .error (.invalidEnumObject obj_dynamic.length)
            else
              DynamicType.deserialize_enum_entries fuel enum_type obj_dynamic
                custom_types
        | .str s =>
            match lookupKey enum_type s with
            | some .Dummy => .ok ()
            | _ => .error (.unknownEnumVariant s)
        | _ => .error .cannotDeserializeEnum
    | .Typ c_type =>
        match lookupKey custom_types c_type with
        | none => .error (.undefinedCustomType c_type)
        | some (.Basic type_dyn) =>
            DynamicType.deserialize fuel type_dyn value custom_types
        | some (.Object hash_map) =>
            match value with
            | .obj obj_dynamic =>
                let (len, options) := count_options hash_map
                if obj_dynamic.length < len - options ∨ obj_dynamic.length > len
                then
                  .error (.fieldCountMismatchType c_type (len - options) len
                    obj_dynamic.length)
                else
                  match DynamicType.deserialize_type_fields fuel c_type hash_map
                      obj_dynamic custom_types with
                  | .error e => .error e
                  | .ok [] => .ok ()
                  | .ok (_ :: _) => .error (.unexpectedFieldsType c_type)
            | _ => .error (.expectedObjectForType c_type)
    | .Option inner =>
        if value.isNull then .ok ()
        else DynamicType.deserialize fuel inner value custom_types
    | .Dummy => .error .dummyDeserialize
termination_by (fuel, 0, 0)

/-- Element loop of the Vec case of DynamicType::deserialize. -/
def DynamicType.deserialize_vec (fuel : Nat) (vec_type : DynamicType)
    (elems : List Value) (custom_types : SchemaMap) :
    Except ContractError Unit :=
  match elems with
  | [] => .ok ()
  | val :: rest =>
      match DynamicType.deserialize fuel vec_type val custom_types with
      | .error e => .error e
      | .ok _ => DynamicType.deserialize_vec fuel vec_type rest custom_types
termination_by (fuel, 1, elems.length)

/-- Entry loop of the Enum-object case of DynamicType::deserialize. -/
def DynamicType.deserialize_enum_entries (fuel : Nat)
    (enum_type : EnumVariants) (entries : JsonObject)
    (custom_types : SchemaMap) : Except ContractError Unit :=
  match entries with
  | [] => .ok ()
  | (value_name, value_val) :: rest =>
      match lookupKey enum_type value_name with
      | none => .error (.unknownEnumVariant value_name)
      | some type_dyn =>
          match DynamicType.deserialize fuel type_dyn value_val custom_types with
          | .error e => .error e
          | .ok _ =>
              DynamicType.deserialize_enum_entries fuel enum_type rest
                custom_types
termination_by (fuel, 1, entries.length)

/-- Declared-field loop of the custom-Object case of DynamicType::deserialize:
walks the declared fields, removing each matched field from the value object
and returning the unmatched remainder. -/
def DynamicType.deserialize_type_fields (fuel : Nat) (c_type : CTypeName)
    (decl : EnumVariants) (obj : JsonObject)
    (custom_types : SchemaMap) :
    Except ContractError JsonObject :=
  match decl with
  | [] => .ok obj
  | (type_field, type_dyn) :: rest =>
      match removeKey obj type_field with
      | some (v, obj') =>
          match DynamicType.deserialize fuel type_dyn v custom_types with
          | .error e => .error e
          | .ok _ =>
              DynamicType.deserialize_type_fields fuel c_type rest obj'
                custom_types
      | none =>
          if type_dyn.is_option then
            DynamicType.deserialize_type_fields fuel c_type rest obj
              custom_types
          else .error (.missingRequiredFieldType type_field c_type)
termination_by (fuel, 1, decl.length)

end

/-- Declared-field loop of the Object case of Fields::check_value (the
source duplicates the custom-Object loop of DynamicType::deserialize with
its own error messages). -/
def Fields.check_value_fields (fuel : Nat) (decl : EnumVariants)
    (obj : JsonObject) (custom_types : SchemaMap) :
    Except ContractError JsonObject :=
  match decl with
  | [] => .ok obj
  | (custom_type_name, custom_type_type) :: rest =>
      match removeKey obj custom_type_name with
      | some (field_type, obj') =>
          match DynamicType.deserialize fuel custom_type_type field_type
              custom_types with
          | .error e => .error e
          | .ok _ => Fields.check_value_fields fuel rest obj' custom_types
      | none =>
          if custom_type_type.is_option then
            Fields.check_value_fields fuel rest obj custom_types
          else .error (.missingRequiredField custom_type_name)

/-- Mirrors Fields::check_value: conformance of a JSON value against a type
definition body. -/
def Fields.check_value (fuel : Nat) (f : Fields) (data : Value)
    (custom_types : SchemaMap) : Except ContractError Unit :=
  match f with
  | .Basic dynamic_type =>
      DynamicType.deserialize fuel dynamic_type data custom_types
  | .Object hash_map =>
      match data with
      | .obj data_object =>
          let (len, options) := count_options hash_map
          if data_object.length < len - options ∨ data_object.length > len then
            .error (.fieldCountMismatch (len - options) len data_object.length)
          else
            match Fields.check_value_fields fuel hash_map data_object
                custom_types with
            | .error e => .error e
            | .ok [] => .ok ()
            | .ok (_ :: _) => .error .unexpectedFields
      | _ => .error .expectedObject

/-- Mirrors the free function check_data (validating one named element's
content against a built-in or custom type); named `check_data_element` here
because the bare name would collide with the methods of the same name. -/
def check_data_element (fuel : Nat) (type_name : String) (content : Value)
    (custom_types : SchemaMap) : Except ContractError Unit :=
  if type_name = "" then .error .emptyElementTypeName
  else
    match lookupKey custom_types type_name with
    | some dynamic_type => dynamic_type.check_value fuel content custom_types
    | none =>
      match type_name with
      | "String" => DynamicType.String.deserialize fuel content custom_types
      | "i64" => DynamicType.i64.deserialize fuel content custom_types
      | "u64" => DynamicType.u64.deserialize fuel content custom_types
      | "f64" => DynamicType.f64.deserialize fuel content custom_types
      | "bool" => DynamicType.bool.deserialize fuel content custom_types
      | _ => .error (.unknownTypeName type_name)

/-- Mirrors the free function register_data (name/type-name equality checks
plus content conformance); named `register_data_element` here because the
bare name would collide with the methods of the same name. -/
def register_data_element (fuel : Nat) (local_name local_type_name : String)
    (custom_types : SchemaMap) (name type_name : String) (content : Value) :
    Except ContractError Unit :=
  if local_name ≠ name then .error (.nameMismatch local_name name)
  else if local_type_name ≠ type_name then
    .error (.typeNameMismatch local_type_name type_name)
  else
    match lookupKey custom_types local_type_name with
    | some c_type => c_type.check_value fuel content custom_types
    | none =>
      match local_type_name with
      | "String" => DynamicType.String.deserialize fuel content custom_types
      | "i64" => DynamicType.i64.deserialize fuel content custom_types
      | "u64" => DynamicType.u64.deserialize fuel content custom_types
      | "f64" => DynamicType.f64.deserialize fuel content custom_types
      | "bool" => DynamicType.bool.deserialize fuel content custom_types
      | _ => .error (.unknownTypeName local_type_name)

/-- Mirrors struct Target. -/
structure Target where
  governance_id : String
  subject_id : String
  unit_process : String

/-- Mirrors struct Properties. -/
structure Properties where
  name : String
  type_name : String
  content : Value

/-- Mirrors struct Metadata. -/
structure Metadata where
  type_name : String
  content : Value

/-- Mirrors struct Data (a typed input/output slot of a unit process). -/
structure Data where
  name : String
  type_name : String
  metadata : Option Metadata
  content : Value
  targets : Option (List Target)

/-- Mirrors struct RegisterData (the incoming payload for one slot). -/
structure RegisterData where
  name : String
  type_name : String
  content : Value
  targets : Option (List Target)

/-- Mirrors struct UnitData (one per-unit-process update of a RegisterData
event). -/
structure UnitData where
  name : String
  outputs : Option (List RegisterData)
  inputs : Option (List RegisterData)
  properties : Option (List Properties)

/-- Mirrors struct UnitProcess. -/
structure UnitProcess where
  name : String
  inputs : List Data
  outputs : List Data
  properties : List Properties

/-- Mirrors struct ProductionSystem (the aggregate document).  The u32
`version` is a `Nat`; the increment site reduces it modulo 2^32. -/
structure ProductionSystem where
  name : String
  custom_types : SchemaMap
  version : Nat
  unit_process : List UnitProcess
  properties : List Properties

/-- Mirrors From<RegisterData> for Data. -/
def Data.fromRegister (value : RegisterData) : Data :=
  { name := value.name
    type_name := value.type_name
    metadata := none
    content := value.content
    targets := value.targets }

/-- Mirrors Properties::check_data. -/
def Properties.check_data (fuel : Nat) (self : Properties)
    (custom_types : SchemaMap) : Except ContractError Unit :=
  if self.name = "" then .error .emptyPropertyName
  else check_data_element fuel self.type_name self.content custom_types

/-- Mirrors Properties::register_data: on success only `content` is
replaced; on failure the property is returned unmodified. -/
def Properties.register_data (fuel : Nat) (self : Properties)
    (data : Properties) (custom_types : SchemaMap) :
    Properties × Option ContractError :=
  match register_data_element fuel self.name self.type_name custom_types
      data.name data.type_name data.content with
  | .error e => (self, some e)
  | .ok _ => ({ self with content := data.content }, none)

/-- Mirrors Data::check_data (the definition-time check of a slot). -/
def Data.check_data (fuel : Nat) (self : Data) (custom_types : SchemaMap) :
    Except ContractError Unit :=
  if self.targets.isSome then .error (.targetsSetInDefinition self.name)
  else if self.name = "" then .error .emptyDataElementName
  else
    match self.metadata with
    | some metadata =>
        match check_data_element fuel metadata.type_name metadata.content
            custom_types with
        | .error e => .error e
        | .ok _ => check_data_element fuel self.type_name self.content
            custom_types
    | none => check_data_element fuel self.type_name self.content custom_types

/-- Tests whether some target in the list has an empty field (the loop body
of Data::register_data's target check). -/
def Target.anyEmptyField (targets : List Target) : Bool :=
  targets.any fun t =>
    t.governance_id = "" ∨ t.subject_id = "" ∨ t.unit_process = ""

/-- Mirrors Data::register_data.  Note the source checks `self.targets` (the
slot's previous targets) for empty fields, not `data.targets` (the incoming
ones), and then overwrites `targets` with the incoming value. -/
def Data.register_data (fuel : Nat) (self : Data) (data : Data)
    (custom_types : SchemaMap) : Data × Option ContractError :=
  match register_data_element fuel self.name self.type_name custom_types
      data.name data.type_name data.content with
  | .error e => (self, some e)
  | .ok _ =>
      match self.targets with
      | some targets =>
          if Target.anyEmptyField targets then
            (self, some (.invalidTargetConfiguration self.name))
          else ({ self with content := data.content, targets := data.targets },
            none)
      | none =>
          ({ self with content := data.content, targets := data.targets },
            none)

/-- Definition-time check loop over a list of slots (the inputs/outputs
loops of UnitProcess::check_data). -/
def Data.check_list (fuel : Nat) (l : List Data)
    (custom_types : SchemaMap) : Option ContractError :=
  match l with
  | [] => none
  | d :: rest =>
      match Data.check_data fuel d custom_types with
      | .error e => some e
      | .ok _ => Data.check_list fuel rest custom_types

/-- Definition-time check loop over a list of properties. -/
def Properties.check_list (fuel : Nat) (l : List Properties)
    (custom_types : SchemaMap) : Option ContractError :=
  match l with
  | [] => none
  | p :: rest =>
      match Properties.check_data fuel p custom_types with
      | .error e => some e
      | .ok _ => Properties.check_list fuel rest custom_types

/-- Mirrors UnitProcess::check_data, including the duplicated input/output
uniqueness check of the source (performed once before and once after the
property loop). -/
def UnitProcess.check_data (fuel : Nat) (self : UnitProcess)
    (custom_types : SchemaMap) : Option ContractError :=
  if self.name = "" then some .unitProcessEmptyName
  else
    match Data.check_list fuel self.inputs custom_types with
    | some e => some e
    | none =>
      match Data.check_list fuel self.outputs custom_types with
      | some e => some e
      | none =>
        let names := self.inputs.map Data.name ++ self.outputs.map Data.name
        if names.dedup.length ≠ self.outputs.length + self.inputs.length then
          some (.duplicateUnitDataNames self.name)
        else
          match Properties.check_list fuel self.properties custom_types with
          | some e => some e
          | none =>
            if names.dedup.length ≠ self.outputs.length + self.inputs.length
            then some (.duplicateUnitDataNames self.name)
            else
              let properties_name := self.properties.map Properties.name
              if properties_name.dedup.length ≠ self.properties.length then
                some (.duplicateUnitPropertyNames self.name)
              else none

/-- Inner entry loop of UnitProcess::register_data for one slot: applies, in
order, every incoming entry whose name matches the slot, counting the
applications; an application error aborts (the partially updated slot is
kept, as the Rust code mutates in place). -/
def Data.register_entries (fuel : Nat) (slot : Data)
    (entries : List RegisterData) (custom_types : SchemaMap) :
    (Data × Nat) × Option ContractError :=
  match entries with
  | [] => ((slot, 0), none)
  | e :: rest =>
      if slot.name = e.name then
        match Data.register_data fuel slot (Data.fromRegister e)
            custom_types with
        | (slot', some err) => ((slot', 0), some err)
        | (slot', none) =>
            match Data.register_entries fuel slot' rest custom_types with
            | ((slot'', n), err) => ((slot'', n + 1), err)
      else Data.register_entries fuel slot rest custom_types

/-- Outer slot loop of UnitProcess::register_data over the unit process's
own input (or output) list, threading the total update count. -/
def Data.register_slots (fuel : Nat) (slots : List Data)
    (entries : List RegisterData) (custom_types : SchemaMap) :
    (List Data × Nat) × Option ContractError :=
  match slots with
  | [] => (([], 0), none)
  | slot :: rest =>
      match Data.register_entries fuel slot entries custom_types with
      | ((slot', n), some e) => ((slot' :: rest, n), some e)
      | ((slot', n), none) =>
          match Data.register_slots fuel rest entries custom_types with
          | ((rest', m), err) => ((slot' :: rest', n + m), err)

/-- Entry loop of the property part of UnitProcess::register_data for one
property slot. -/
def Properties.register_entries (fuel : Nat) (slot : Properties)
    (entries : List Properties) (custom_types : SchemaMap) :
    (Properties × Nat) × Option ContractError :=
  match entries with
  | [] => ((slot, 0), none)
  | e :: rest =>
      if slot.name = e.name then
        match Properties.register_data fuel slot e custom_types with
        | (slot', some err) => ((slot', 0), some err)
        | (slot', none) =>
            match Properties.register_entries fuel slot' rest custom_types with
            | ((slot'', n), err) => ((slot'', n + 1), err)
      else Properties.register_entries fuel slot rest custom_types

/-- Slot loop of the property part of UnitProcess::register_data. -/
def Properties.register_slots (fuel : Nat) (slots : List Properties)
    (entries : List Properties) (custom_types : SchemaMap) :
    (List Properties × Nat) × Option ContractError :=
  match slots with
  | [] => (([], 0), none)
  | slot :: rest =>
      match Properties.register_entries fuel slot entries custom_types with
      | ((slot', n), some e) => ((slot' :: rest, n), some e)
      | ((slot', n), none) =>
          match Properties.register_slots fuel rest entries custom_types with
          | ((rest', m), err) => ((slot' :: rest', n + m), err)

/-- Mirrors UnitProcess::register_data: one per-unit-process update.  Every
in-place mutation performed before an early error return is kept in the
returned unit process, exactly as in the source. -/
def UnitProcess.register_data (fuel : Nat) (self : UnitProcess)
    (unit : UnitData) (custom_types : SchemaMap) :
    UnitProcess × Option ContractError :=
  if unit.inputs.isNone ∧ unit.outputs.isNone then
    (self, some (.cannotRegisterNoInputsOutputs unit.name))
  else
    let afterInputs : UnitProcess × Option ContractError :=
      match unit.inputs with
      | none => (self, none)
      | some inputs =>
          match inputs with
          | [] => (self, some (.emptyInputsArray unit.name))
          | _ =>
            match Data.register_slots fuel self.inputs inputs custom_types with
            | ((inputs', _), some e) =>
                ({ self with inputs := inputs' }, some e)
            | ((inputs', updates), none) =>
                let self' := { self with inputs := inputs' }
                if updates ≠ inputs.length then
                  (self', some (.unmatchedInputs self.name))
                else (self', none)
    match afterInputs with
    | (s, some e) => (s, some e)
    | (s, none) =>
      let afterOutputs : UnitProcess × Option ContractError :=
        match unit.outputs with
        | none => (s, none)
        | some outputs =>
            match outputs with
            | [] => (s, some (.emptyOutputsArray unit.name))
            | _ =>
              match Data.register_slots fuel s.outputs outputs custom_types with
              | ((outputs', _), some e) =>
                  ({ s with outputs := outputs' }, some e)
              | ((outputs', updates), none) =>
                  let s' := { s with outputs := outputs' }
                  if updates ≠ outputs.length then
                    (s', some (.unmatchedOutputs s.name))
                  else (s', none)
      match afterOutputs with
      | (s, some e) => (s, some e)
      | (s, none) =>
        match unit.properties with
        | none => (s, none)
        | some properties =>
            match properties with
            | [] => (s, some (.emptyPropertiesArray unit.name))
            | _ =>
              match Properties.register_slots fuel s.properties properties
                  custom_types with
              | ((properties', _), some e) =>
                  ({ s with properties := properties' }, some e)
              | ((properties', updates), none) =>
                  let s' := { s with properties := properties' }
                  if updates ≠ properties.length then
                    (s', some (.unmatchedProperties s.name))
                  else (s', none)

/-- Adjacency lookup in the reference graph built by add_types (a missing
key has no neighbors, as HashMap::get returning None). -/
def neighborsOf (graph : List (String × NameList)) (node : String) :
    NameList :=
  match lookupKey graph node with
  | some l => l
  | none => []

mutual

/-- Mirrors the free function has_cycle: depth-first search with a visited
set and an ancestor stack, returning whether a back edge into the stack was
found together with the updated visited set.  The Rust recursion terminates
because the graph is finite; the embedding carries explicit fuel (`none`
marks exhaustion) and `check_cycle` supplies fuel sufficient for the whole
graph. -/
def has_cycle (graph : List (String × NameList)) (fuel : Nat) (node : String)
    (visited stack : NameList) : Option (Bool × NameList) :=
  match fuel with
  | 0 => none
  | fuel + 1 =>
    if node ∈ stack then some (true, visited)
    else if node ∈ visited then some (false, visited)
    else
      has_cycle_list graph fuel (neighborsOf graph node) (node :: visited)
        (node :: stack)
termination_by (fuel, 0)

/-- Neighbor loop of has_cycle; on a false return of the whole call the
stack entry of the current node is dropped simply by resuming with the
caller's stack. -/
def has_cycle_list (graph : List (String × NameList)) (fuel : Nat)
    (neighbors : NameList) (visited stack : NameList) :
    Option (Bool × NameList) :=
  match neighbors with
  | [] => some (false, visited)
  | nb :: rest =>
      match has_cycle graph fuel nb visited stack with
      | none => none
      | some (true, v') => some (true, v')
      | some (false, v') => has_cycle_list graph fuel rest v' stack
termination_by (fuel, neighbors.length + 1)

end

/-- Fuel sufficient for every depth-first search over the graph: one unit
per graph node plus one per listed neighbor, plus one. -/
def cycleFuel (graph : List (String × NameList)) : Nat :=
  graph.length + (graph.map (fun p => p.2.length)).sum + 1

/-- Key loop of the free function check_cycle. -/
def check_cycle_loop (graph : List (String × NameList)) (fuel : Nat)
    (keys : NameList) (visited : NameList) : Option ContractError :=
  match keys with
  | [] => none
  | type_name :: rest =>
      if type_name ∈ visited then check_cycle_loop graph fuel rest visited
      else
        match has_cycle graph fuel type_name visited [] with
        | none => some .outOfFuel
        | some (true, _) => some (.circularDependency type_name)
        | some (false, v') => check_cycle_loop graph fuel rest v'

/-- Mirrors the free function check_cycle. -/
def check_cycle (cycle_types : List (String × NameList)) :
    Option ContractError :=
  check_cycle_loop cycle_types (cycleFuel cycle_types)
    (cycle_types.map Prod.fst) []

/-- Reserved type names rejected by add_types. -/
def reservedName (name : String) : Bool :=
  match name with
  | "String" | "bool" | "i64" | "f64" | "u64" | "Dummy" | "Option" | "Enum"
  | "Type" | "Vec" => true
  | _ => false

/-- Per-type check loop of add_types over the merged schema, building the
reference graph for cycle detection. -/
def add_types_loop (temporal_types : SchemaMap) (to_check : SchemaMap) :
    Except ContractError (List (String × NameList)) :=
  match to_check with
  | [] => .ok []
  | (name, fields) :: rest =>
      if name = "" then .error .emptyTypeName
      else if reservedName name then .error (.reservedTypeName name)
      else
        match fields.check_data temporal_types with
        | .error e => .error e
        | .ok internal_types =>
            match add_types_loop temporal_types rest with
            | .error e => .error e
            | .ok graph => .ok ((name, internal_types) :: graph)

/-- Mirrors the free function add_types: merge the batch into the schema,
check every type of the merged schema, run cycle detection, and only then
commit the merged schema into the state (no mutation on any error path). -/
def add_types (state : ProductionSystem) (types : List (String × Fields)) :
    ProductionSystem × Option ContractError :=
  match types with
  | [] => (state, some .cannotAddTypesEmpty)
  | _ =>
    let temporal_types := types.foldl
      (fun acc (p : String × Fields) => insertKey acc p.1 p.2)
      state.custom_types
    match add_types_loop temporal_types temporal_types with
    | .error e => (state, some e)
    | .ok cycle_types =>
        match check_cycle cycle_types with
        | some e => (state, some e)
        | none => ({ state with custom_types := temporal_types }, none)

/-- Check-and-push loop of add_unit_process (a failing check keeps the unit
processes already pushed, as the source mutates the state in place). -/
def add_unit_process_loop (fuel : Nat) (state : ProductionSystem)
    (add : List UnitProcess) : ProductionSystem × Option ContractError :=
  match add with
  | [] => (state, none)
  | unit_process :: rest =>
      match UnitProcess.check_data fuel unit_process state.custom_types with
      | some e => (state, some e)
      | none =>
          add_unit_process_loop fuel
            { state with unit_process := state.unit_process ++ [unit_process] }
            rest

/-- Mirrors the free function add_unit_process. -/
def add_unit_process (fuel : Nat) (state : ProductionSystem)
    (add : List UnitProcess) : ProductionSystem × Option ContractError :=
  match add with
  | [] => (state, some .cannotAddUnitProcessesEmpty)
  | _ =>
    match add_unit_process_loop fuel state add with
    | (s, some e) => (s, some e)
    | (s, none) =>
        let unit_names := s.unit_process.map UnitProcess.name
        if unit_names.dedup.length ≠ unit_names.length then
          (s, some .duplicateUnitProcessNames)
        else (s, none)

/-- Check-and-push loop of add_new_properties. -/
def add_new_properties_loop (fuel : Nat) (state : ProductionSystem)
    (properties : List Properties) : ProductionSystem × Option ContractError :=
  match properties with
  | [] => (state, none)
  | pro :: rest =>
      match Properties.check_data fuel pro state.custom_types with
      | .error e => (state, some e)
      | .ok _ =>
          add_new_properties_loop fuel
            { state with properties := state.properties ++ [pro] } rest

/-- Mirrors the free function add_new_properties. -/
def add_new_properties (fuel : Nat) (state : ProductionSystem)
    (properties : List Properties) : ProductionSystem × Option ContractError :=
  match properties with
  | [] => (state, some .cannotAddPropertiesEmpty)
  | _ =>
    match add_new_properties_loop fuel state properties with
    | (s, some e) => (s, some e)
    | (s, none) =>
        let properties_names := s.properties.map Properties.name
        if properties_names.dedup.length ≠ properties_names.length then
          (s, some .duplicatePropertyNames)
        else (s, none)

/-- Mirrors enum ChangeProductionSystem (the structural events). -/
inductive ChangeProductionSystem where
  | Init (name : String) (unit_process : Option (List UnitProcess))
      (types : Option (List (String × Fields)))
      (properties : Option (List Properties))
  | ModifyProductionSystem (name : Option String)
      (delete_properties : Option (List String))
      (modify_properties : Option (List (String × Properties)))
      (add_properties : Option (List Properties))
  | ModifyTypes (delete : Option (List String))
      (add : Option (List (String × Fields)))
  | ModifyUnitProcess (delete : Option (List String))
      (modify : Option (List (String × UnitProcess)))
      (add : Option (List UnitProcess))

/-- Mirrors enum Events. -/
inductive Events where
  | ChangeProductionSystem (op : ChangeProductionSystem)
  | RegisterData (data : List UnitData)

/-- Mirrors sdk::Context (the privilege flag is accepted but unused). -/
structure Context where
  event : Events
  is_owner : Bool

/-- Mirrors sdk::ContractResult as contract_logic leaves it: the draft
state (mutated in place by the source), the success flag (false until the
final line of contract_logic sets it), and the error (None for the empty
error string). -/
structure ContractResult where
  state : ProductionSystem
  success : Bool
  error : Option ContractError

/-- Sequencing of in-place mutations with early error return (the `?` /
`return` pattern of the source: an error keeps the draft state reached so
far). -/
def psBind (r : ProductionSystem × Option ContractError)
    (f : ProductionSystem → ProductionSystem × Option ContractError) :
    ProductionSystem × Option ContractError :=
  match r with
  | (s, some e) => (s, some e)
  | (s, none) => f s

/-- Init arm of contract_logic (the version was already incremented by the
caller): name check and assignment, then types, unit processes, properties. -/
def apply_init (fuel : Nat) (state : ProductionSystem) (name : String)
    (unit_process : Option (List UnitProcess))
    (types : Option (List (String × Fields)))
    (properties : Option (List Properties)) :
    ProductionSystem × Option ContractError :=
  if name = "" then (state, some .initEmptyName)
  else
    let state := { state with name := name }
    psBind
      (match types with
       | some types => add_types state types
       | none => (state, none))
      fun s =>
        psBind
          (match unit_process with
           | some unit_process => add_unit_process fuel s unit_process
           | none => (s, none))
          fun s =>
            match properties with
            | some properties => add_new_properties fuel s properties
            | none => (s, none)

/-- Delete loop of the ModifyProductionSystem arm: each named property must
exist and is removed at its first position. -/
def delete_properties_loop (state : ProductionSystem) (names : List String) :
    ProductionSystem × Option ContractError :=
  match names with
  | [] => (state, none)
  | name :: rest =>
      if state.properties.any (fun x => x.name = name) then
        delete_properties_loop
          { state with
            properties :=
              state.properties.eraseP (fun x => x.name = name) }
          rest
      else (state, some (.deletePropertyNotFound name))

/-- Replacement of the first property with the given name. -/
def replace_property (l : List Properties) (name : String) (p : Properties) :
    List Properties :=
  match l with
  | [] => []
  | x :: rest =>
      if x.name = name then p :: rest else x :: replace_property rest name p

/-- Modify loop of the ModifyProductionSystem arm: the replacement is
checked against the schema, then the first property with the given name is
replaced (a missing name is an error). -/
def modify_properties_loop (fuel : Nat) (state : ProductionSystem)
    (l : List (String × Properties)) :
    ProductionSystem × Option ContractError :=
  match l with
  | [] => (state, none)
  | (name, propiertie) :: rest =>
      match Properties.check_data fuel propiertie state.custom_types with
      | .error e => (state, some e)
      | .ok _ =>
          if state.properties.any (fun x => x.name = name) then
            modify_properties_loop fuel
              { state with
                properties := replace_property state.properties name
                  propiertie }
              rest
          else (state, some (.modifyPropertyNotFound name))

/-- ModifyProductionSystem arm of contract_logic. -/
def apply_modify_production_system (fuel : Nat) (state : ProductionSystem)
    (name : Option String) (delete_properties : Option (List String))
    (modify_properties : Option (List (String × Properties)))
    (add_properties : Option (List Properties)) :
    ProductionSystem × Option ContractError :=
  if name.isNone ∧ delete_properties.isNone ∧ add_properties.isNone ∧
      modify_properties.isNone then
    (state, some .modifyPSNoParams)
  else
    psBind
      (match name with
       | some name =>
           if name = "" then (state, some .modifyPSEmptyName)
           else ({ state with name := name }, none)
       | none => (state, none))
      fun s =>
        psBind
          (match delete_properties with
           | some delete_properties =>
               match delete_properties with
               | [] => (s, some .deletePropertiesEmptyList)
               | _ => delete_properties_loop s delete_properties
           | none => (s, none))
          fun s =>
            psBind
              (match modify_properties with
               | some modify_properties =>
                   match modify_properties with
                   | [] => (s, some .modifyPropertiesEmptyList)
                   | _ => modify_properties_loop fuel s modify_properties
               | none => (s, none))
              fun s =>
                match add_properties with
                | some add_properties => add_new_properties fuel s
                    add_properties
                | none => (s, none)

/-- Delete loop of the ModifyTypes arm: each named type must exist in the
schema and is removed (deletion is unconditional, nothing checks for
remaining references). -/
def delete_types_loop (state : ProductionSystem) (names : List String) :
    ProductionSystem × Option ContractError :=
  match names with
  | [] => (state, none)
  | name :: rest =>
      match removeKey state.custom_types name with
      | none => (state, some (.deleteTypeNotFound name))
      | some (_, custom_types') =>
          delete_types_loop { state with custom_types := custom_types' } rest

/-- ModifyTypes arm of contract_logic.  Note the `delete` list, unlike every
other sub-batch, is not rejected when present but empty. -/
def apply_modify_types (state : ProductionSystem)
    (delete : Option (List String)) (add : Option (List (String × Fields))) :
    ProductionSystem × Option ContractError :=
  if delete.isNone ∧ add.isNone then (state, some .modifyTypesNoParams)
  else
    psBind
      (match delete with
       | some delete => delete_types_loop state delete
       | none => (state, none))
      fun s =>
        match add with
        | some add => add_types s add
        | none => (s, none)

/-- Removal of the first unit process with the given name. -/
def erase_unit_process (l : List UnitProcess) (name : String) :
    List UnitProcess :=
  match l with
  | [] => []
  | x :: rest =>
      if x.name = name then rest else x :: erase_unit_process rest name

/-- Delete loop of the ModifyUnitProcess arm. -/
def delete_unit_process_loop (state : ProductionSystem)
    (names : List String) : ProductionSystem × Option ContractError :=
  match names with
  | [] => (state, none)
  | name :: rest =>
      if state.unit_process.any (fun x => x.name = name) then
        delete_unit_process_loop
          { state with
            unit_process := erase_unit_process state.unit_process name }
          rest
      else (state, some (.deleteUPNotFound name))

/-- Replacement of the first unit process with the given name. -/
def replace_unit_process (l : List UnitProcess) (name : String)
    (p : UnitProcess) : List UnitProcess :=
  match l with
  | [] => []
  | x :: rest =>
      if x.name = name then p :: rest
      else x :: replace_unit_process rest name p

/-- Modify loop of the ModifyUnitProcess arm. -/
def modify_unit_process_loop (fuel : Nat) (state : ProductionSystem)
    (l : List (String × UnitProcess)) :
    ProductionSystem × Option ContractError :=
  match l with
  | [] => (state, none)
  | (name, process) :: rest =>
      match UnitProcess.check_data fuel process state.custom_types with
      | some e => (state, some e)
      | none =>
          if state.unit_process.any (fun x => x.name = name) then
            modify_unit_process_loop fuel
              { state with
                unit_process := replace_unit_process state.unit_process name
                  process }
              rest
          else (state, some (.modifyUPNotFound name))

/-- ModifyUnitProcess arm of contract_logic: delete, then modify, then add. -/
def apply_modify_unit_process (fuel : Nat) (state : ProductionSystem)
    (delete : Option (List String))
    (modify : Option (List (String × UnitProcess)))
    (add : Option (List UnitProcess)) :
    ProductionSystem × Option ContractError :=
  if delete.isNone ∧ add.isNone ∧ modify.isNone then
    (state, some .modifyUPNoParams)
  else
    psBind
      (match delete with
       | some delete =>
           match delete with
           | [] => (state, some .deleteUPEmptyList)
           | _ => delete_unit_process_loop state delete
       | none => (state, none))
      fun s =>
        psBind
          (match modify with
           | some modify =>
               match modify with
               | [] => (s, some .modifyUPEmptyList)
               | _ => modify_unit_process_loop fuel s modify
           | none => (s, none))
          fun s =>
            match add with
            | some add => add_unit_process fuel s add
            | none => (s, none)

/-- Search-and-update over the unit process list for one UnitData entry:
the first unit process with a matching name is updated (the loop breaks on
the first match); the Bool records whether a match was found. -/
def find_and_register (fuel : Nat) (ups : List UnitProcess) (d : UnitData)
    (custom_types : SchemaMap) :
    (List UnitProcess × Bool) × Option ContractError :=
  match ups with
  | [] => (([], false), none)
  | up :: rest =>
      if up.name = d.name then
        match UnitProcess.register_data fuel up d custom_types with
        | (up', e) => ((up' :: rest, true), e)
      else
        match find_and_register fuel rest d custom_types with
        | ((rest', change), e) => ((up :: rest', change), e)

/-- Batch loop of the RegisterData arm: entries are applied in order; an
error stops the loop but keeps the updates already applied to the draft. -/
def register_data_batch (fuel : Nat) (state : ProductionSystem)
    (data : List UnitData) : ProductionSystem × Option ContractError :=
  match data with
  | [] => (state, none)
  | d :: rest =>
      match find_and_register fuel state.unit_process d state.custom_types with
      | ((ups', true), none) =>
          register_data_batch fuel { state with unit_process := ups' } rest
      | ((ups', true), some e) =>
          ({ state with unit_process := ups' }, some e)
      | ((_, false), _) => (state, some (.unitProcessNotFound d.name))

/-- RegisterData arm of contract_logic (its version-zero check is
unreachable: the dispatcher already rejected non-Init events at version 0). -/
def apply_register_data (fuel : Nat) (state : ProductionSystem)
    (data : List UnitData) : ProductionSystem × Option ContractError :=
  if state.version = 0 then (state, some .registerBeforeInit)
  else
    match data with
    | [] => (state, some .registerDataEmptyList)
    | _ => register_data_batch fuel state data

/-- Event dispatch of contract_logic after the ordering checks and the
version increment. -/
def dispatch_event (fuel : Nat) (event : Events) (state : ProductionSystem) :
    ProductionSystem × Option ContractError :=
  match event with
  | .ChangeProductionSystem (.Init name unit_process types properties) =>
      apply_init fuel state name unit_process types properties
  | .ChangeProductionSystem
      (.ModifyProductionSystem name delete_properties modify_properties
        add_properties) =>
      apply_modify_production_system fuel state name delete_properties
        modify_properties add_properties
  | .ChangeProductionSystem (.ModifyTypes delete add) =>
      apply_modify_types state delete add
  | .ChangeProductionSystem (.ModifyUnitProcess delete modify add) =>
      apply_modify_unit_process fuel state delete modify add
  | .RegisterData data => apply_register_data fuel state data

/-- Tests for the Init event (the `if let` of the ordering check). -/
def Events.isInit : Events → Bool
  | .ChangeProductionSystem (.Init _ _ _ _) => true
  | _ => false

/-- Tests for a structural event (the version-increment guard). -/
def Events.isChange : Events → Bool
  | .ChangeProductionSystem _ => true
  | _ => false

/-- Version increment of contract_logic: `state.version += 1` on a u32,
wrapping modulo 2^32 (release-build overflow semantics). -/
def bump_version (state : ProductionSystem) : ProductionSystem :=
  { state with version := (state.version + 1) % 4294967296 }

/-- Body of contract_logic after the ordering checks: increment the version
for structural events, dispatch, and set success only when no error was
recorded. -/
def contract_logic_run (fuel : Nat) (event : Events)
    (state : ProductionSystem) : ContractResult :=
  let state := if event.isChange then bump_version state else state
  match dispatch_event fuel event state with
  | (s, none) => { state := s, success := true, error := none }
  | (s, some e) => { state := s, success := false, error := some e }

/-- Mirrors contract_logic: the full event application on the draft state
carried inside the contract result. -/
def contract_logic (fuel : Nat) (context : Context)
    (state : ProductionSystem) : ContractResult :=
  if context.event.isInit then
    if state.version ≠ 0 then
      { state := state, success := false, error := some .initWhenVersionNotZero }
    else contract_logic_run fuel context.event state
  else if state.version = 0 then
    { state := state, success := false, error := some .firstEventMustBeInit }
  else contract_logic_run fuel context.event state

/-- Modelled from the spec: the host-side commit performed by the boundary
adapter (kore contract SDK), which is not part of this repository.  Per the
spec's failure semantics, "validation failures never mutate the committed
document": the host replaces the committed document with the returned draft
only when the result reports success, and keeps the prior document
otherwise. -/
def committed_document (prior : ProductionSystem) (r : ContractResult) :
    ProductionSystem :=
  if r.success then r.state else prior

/-- Conformance of a value to a type expression: the validator accepts at
some fuel (the Rust recursion, when it terminates, accepts). -/
def Conforms (t : DynamicType) (v : Value) (custom_types : SchemaMap) :
    Prop :=
  ∃ fuel, DynamicType.deserialize fuel t v custom_types = .ok ()

/-- Conformance of a value to a type definition body. -/
def FieldsConforms (f : Fields) (v : Value) (custom_types : SchemaMap) :
    Prop :=
  ∃ fuel, Fields.check_value fuel f v custom_types = .ok ()

/-- Unfolding equation: the validator at fuel zero. -/
@[simp] theorem deserialize_zero (t : DynamicType) (v : Value)
    (ct : SchemaMap) : DynamicType.deserialize 0 t v ct = .error .outOfFuel := by
  conv_lhs => unfold DynamicType.deserialize

/-- Unfolding equation for the String case. -/
@[simp] theorem deserialize_succ_String (fuel : Nat) (v : Value)
    (ct : SchemaMap) :
    DynamicType.deserialize (fuel + 1) .String v ct =
      if v.asStr.isNone then .error .expectedString else .ok () := by
  conv_lhs => unfold DynamicType.deserialize

/-- Unfolding equation for the u64 case. -/
@[simp] theorem deserialize_succ_u64 (fuel : Nat) (v : Value)
    (ct : SchemaMap) :
    DynamicType.deserialize (fuel + 1) .u64 v ct =
      if v.asU64.isNone then .error .expectedU64 else .ok () := by
  conv_lhs => unfold DynamicType.deserialize

/-- Unfolding equation for the f64 case. -/
@[simp] theorem deserialize_succ_f64 (fuel : Nat) (v : Value)
    (ct : SchemaMap) :
    DynamicType.deserialize (fuel + 1) .f64 v ct =
      if v.asF64 = false then .error .expectedF64 else .ok () := by
  conv_lhs => unfold DynamicType.deserialize

/-- Unfolding equation for the i64 case. -/
@[simp] theorem deserialize_succ_i64 (fuel : Nat) (v : Value)
    (ct : SchemaMap) :
    DynamicType.deserialize (fuel + 1) .i64 v ct =
      if v.asI64.isNone then .error .expectedI64 else .ok () := by
  conv_lhs => unfold DynamicType.deserialize

/-- Unfolding equation for the bool case. -/
@[simp] theorem deserialize_succ_bool (fuel : Nat) (v : Value)
    (ct : SchemaMap) :
    DynamicType.deserialize (fuel + 1) .bool v ct =
      if v.asBool.isNone then .error .expectedBool else .ok () := by
  conv_lhs => unfold DynamicType.deserialize

/-- Unfolding equation for the Vec case. -/
@[simp] theorem deserialize_succ_Vec (fuel : Nat) (ty : DynamicType)
    (v : Value) (ct : SchemaMap) :
    DynamicType.deserialize (fuel + 1) (.Vec ty) v ct =
      match v with
      | .arr l => DynamicType.deserialize_vec fuel ty l ct
      | _ => .error .expectedArray := by
  conv_lhs => unfold DynamicType.deserialize

/-- Unfolding equation for the Enum case. -/
@[simp] theorem deserialize_succ_Enum (fuel : Nat) (es : EnumVariants)
    (v : Value) (ct : SchemaMap) :
    DynamicType.deserialize (fuel + 1) (.Enum es) v ct =
      match v with
      | .obj o =>
          if o.length ≠ 1 then .error (.invalidEnumObject o.length)
          else DynamicType.deserialize_enum_entries fuel es o ct
      | .str s =>
          match lookupKey es s with
          | some .Dummy => .ok ()
          | _ => .error (.unknownEnumVariant s)
      | _ => .error .cannotDeserializeEnum := by
  conv_lhs => unfold DynamicType.deserialize

/-- Unfolding equation for the Typ case with an undefined custom type. -/
@[simp] theorem deserialize_succ_Typ_none (fuel : Nat) (c : String)
    (v : Value) (ct : SchemaMap) (hlk : lookupKey ct c = none) :
    DynamicType.deserialize (fuel + 1) (.Typ c) v ct =
      .error (.undefinedCustomType c) := by
  conv_lhs => unfold DynamicType.deserialize
  simp only [hlk]

/-- Unfolding equation for the Typ case resolving to a Basic definition. -/
@[simp] theorem deserialize_succ_Typ_Basic (fuel : Nat) (c : String)
    (v : Value) (ct : SchemaMap) (ty : DynamicType)
    (hlk : lookupKey ct c = some (.Basic ty)) :
    DynamicType.deserialize (fuel + 1) (.Typ c) v ct =
      DynamicType.deserialize fuel ty v ct := by
  conv_lhs => unfold DynamicType.deserialize
  simp only [hlk]

/-- Unfolding equation for the Typ case resolving to an Object definition. -/
theorem deserialize_succ_Typ_Object (fuel : Nat) (c : String) (v : Value)
    (ct : SchemaMap) (hm : EnumVariants)
    (hlk : lookupKey ct c = some (.Object hm)) :
    DynamicType.deserialize (fuel + 1) (.Typ c) v ct =
      match v with
      | .obj o =>
          if o.length < hm.length - (count_options hm).2 ∨
              o.length > hm.length then
            .error (.fieldCountMismatchType c
              (hm.length - (count_options hm).2) hm.length o.length)
          else
            match DynamicType.deserialize_type_fields fuel c hm o ct with
            | .error e => .error e
            | .ok [] => .ok ()
            | .ok (_ :: _) => .error (.unexpectedFieldsType c)
      | _ => .error (.expectedObjectForType c) := by
  conv_lhs => unfold DynamicType.deserialize
  simp only [hlk]
  cases v <;> simp [count_options]

/-- Unfolding equation for the Option case. -/
@[simp] theorem deserialize_succ_Option (fuel : Nat) (ty : DynamicType)
    (v : Value) (ct : SchemaMap) :
    DynamicType.deserialize (fuel + 1) (.Option ty) v ct =
      if v.isNull then .ok ()
      else DynamicType.deserialize fuel ty v ct := by
  conv_lhs => unfold DynamicType.deserialize

/-- Unfolding equation for the Dummy case. -/
@[simp] theorem deserialize_succ_Dummy (fuel : Nat) (v : Value)
    (ct : SchemaMap) :
    DynamicType.deserialize (fuel + 1) .Dummy v ct =
      .error .dummyDeserialize := by
  conv_lhs => unfold DynamicType.deserialize

/-- Unfolding equation: empty array element loop. -/
@[simp] theorem deserialize_vec_nil (fuel : Nat) (ty : DynamicType)
    (ct : SchemaMap) :
    DynamicType.deserialize_vec fuel ty [] ct = .ok () := by
  conv_lhs => unfold DynamicType.deserialize_vec

/-- Unfolding equation: array element loop step. -/
@[simp] theorem deserialize_vec_cons (fuel : Nat) (ty : DynamicType)
    (hd : Value) (tl : List Value) (ct : SchemaMap) :
    DynamicType.deserialize_vec fuel ty (hd :: tl) ct =
      match DynamicType.deserialize fuel ty hd ct with
      | .error e => .error e
      | .ok _ => DynamicType.deserialize_vec fuel ty tl ct := by
  conv_lhs => unfold DynamicType.deserialize_vec

/-- Unfolding equation: empty enum entry loop. -/
@[simp] theorem deserialize_enum_entries_nil (fuel : Nat)
    (es : EnumVariants) (ct : SchemaMap) :
    DynamicType.deserialize_enum_entries fuel es [] ct = .ok () := by
  conv_lhs => unfold DynamicType.deserialize_enum_entries

/-- Unfolding equation: enum entry loop step. -/
@[simp] theorem deserialize_enum_entries_cons (fuel : Nat)
    (es : EnumVariants) (hd : String × Value) (tl : JsonObject)
    (ct : SchemaMap) :
    DynamicType.deserialize_enum_entries fuel es (hd :: tl) ct =
      match lookupKey es hd.1 with
      | none => .error (.unknownEnumVariant hd.1)
      | some ty =>
          match DynamicType.deserialize fuel ty hd.2 ct with
          | .error e => .error e
          | .ok _ => DynamicType.deserialize_enum_entries fuel es tl ct := by
  conv_lhs => unfold DynamicType.deserialize_enum_entries

/-- Unfolding equation: empty declared-field loop (custom type). -/
@[simp] theorem deserialize_type_fields_nil (fuel : Nat) (c : CTypeName)
    (o : JsonObject) (ct : SchemaMap) :
    DynamicType.deserialize_type_fields fuel c [] o ct = .ok o := by
  conv_lhs => unfold DynamicType.deserialize_type_fields

/-- Unfolding equation: declared-field loop step (custom type). -/
@[simp] theorem deserialize_type_fields_cons (fuel : Nat) (c : CTypeName)
    (hd : String × DynamicType) (tl : EnumVariants) (o : JsonObject)
    (ct : SchemaMap) :
    DynamicType.deserialize_type_fields fuel c (hd :: tl) o ct =
      match removeKey o hd.1 with
      | some (v, o') =>
          match DynamicType.deserialize fuel hd.2 v ct with
          | .error e => .error e
          | .ok _ => DynamicType.deserialize_type_fields fuel c tl o' ct
      | none =>
          if hd.2.is_option then
            DynamicType.deserialize_type_fields fuel c tl o ct
          else .error (.missingRequiredFieldType hd.1 c) := by
  conv_lhs => unfold DynamicType.deserialize_type_fields

/-- Unfolding equation: empty declared-field loop of Fields::check_value. -/
@[simp] theorem check_value_fields_nil (fuel : Nat) (o : JsonObject)
    (ct : SchemaMap) : Fields.check_value_fields fuel [] o ct = .ok o := by
  conv_lhs => unfold Fields.check_value_fields

/-- Unfolding equation: declared-field loop step of Fields::check_value. -/
@[simp] theorem check_value_fields_cons (fuel : Nat)
    (hd : String × DynamicType) (tl : EnumVariants) (o : JsonObject)
    (ct : SchemaMap) :
    Fields.check_value_fields fuel (hd :: tl) o ct =
      match removeKey o hd.1 with
      | some (v, o') =>
          match DynamicType.deserialize fuel hd.2 v ct with
          | .error e => .error e
          | .ok _ => Fields.check_value_fields fuel tl o' ct
      | none =>
          if hd.2.is_option then Fields.check_value_fields fuel tl o ct
          else .error (.missingRequiredField hd.1) := by
  conv_lhs => unfold Fields.check_value_fields

/-- One fuel step preserves every successful run of the validator and of
its loops. -/
theorem deserialize_mono_succ (fuel : Nat) :
    (∀ t v ct, DynamicType.deserialize fuel t v ct = .ok () →
      DynamicType.deserialize (fuel + 1) t v ct = .ok ()) ∧
    (∀ ty l ct, DynamicType.deserialize_vec fuel ty l ct = .ok () →
      DynamicType.deserialize_vec (fuel + 1) ty l ct = .ok ()) ∧
    (∀ es l ct, DynamicType.deserialize_enum_entries fuel es l ct = .ok () →
      DynamicType.deserialize_enum_entries (fuel + 1) es l ct = .ok ()) ∧
    (∀ c m o ct r, DynamicType.deserialize_type_fields fuel c m o ct = .ok r →
      DynamicType.deserialize_type_fields (fuel + 1) c m o ct = .ok r) ∧
    (∀ m o ct r, Fields.check_value_fields fuel m o ct = .ok r →
      Fields.check_value_fields (fuel + 1) m o ct = .ok r) := by
  induction fuel with
  | zero =>
    refine ⟨?_, ?_, ?_, ?_, ?_⟩
    · intro t v ct h
      simp at h
    · intro ty l ct h
      cases l with
      | nil => simp
      | cons hd tl => simp at h
    · intro es l ct h
      cases l with
      | nil => simp
      | cons hd tl =>
        simp at h
        cases hlk : lookupKey es hd.1 with
        | none => simp [hlk] at h
        | some ty => simp [hlk] at h
    · intro c m o ct r h
      induction m generalizing o with
      | nil => simpa using h
      | cons hd tl ih =>
        simp at h ⊢
        cases hrm : removeKey o hd.1 with
        | none =>
          simp only [hrm] at h ⊢
          by_cases hopt : hd.2.is_option
          · simp only [hopt, if_true] at h ⊢
            exact ih _ h
          · simp [hopt] at h
        | some p =>
          simp [hrm] at h
    · intro m o ct r h
      induction m generalizing o with
      | nil => simpa using h
      | cons hd tl ih =>
        simp at h ⊢
        cases hrm : removeKey o hd.1 with
        | none =>
          simp only [hrm] at h ⊢
          by_cases hopt : hd.2.is_option
          · simp only [hopt, if_true] at h ⊢
            exact ih _ h
          · simp [hopt] at h
        | some p =>
          simp [hrm] at h
  | succ fuel ih =>
    obtain ⟨ihd, ihv, ihe, iht, ihf⟩ := ih
    have hdes : ∀ t v ct, DynamicType.deserialize (fuel + 1) t v ct = .ok () →
        DynamicType.deserialize (fuel + 1 + 1) t v ct = .ok () := by
      intro t v ct h
      cases t with
      | String => simpa using h
      | i64 => simpa using h
      | u64 => simpa using h
      | f64 => simpa using h
      | bool => simpa using h
      | Dummy => simp at h
      | Vec ty =>
        cases v with
        | arr l =>
          simp only [deserialize_succ_Vec] at h ⊢
          exact ihv _ _ _ h
        | null => simp at h
        | bool b => simp at h
        | num n => simp at h
        | str s => simp at h
        | obj o => simp at h
      | Enum es =>
        cases v with
        | obj o =>
          simp only [deserialize_succ_Enum] at h ⊢
          by_cases hlen : o.length = 1
          · have hc : ¬(o.length ≠ 1) := by simp [hlen]
            rw [if_neg hc] at h ⊢
            exact ihe _ _ _ h
          · rw [if_pos hlen] at h
            simp at h
        | str s => simpa using h
        | null => simp at h
        | bool b => simp at h
        | num n => simp at h
        | arr l => simp at h
      | Option ty =>
        simp only [deserialize_succ_Option] at h ⊢
        by_cases hnull : v.isNull = true
        · rw [if_pos hnull]
        · rw [if_neg hnull] at h ⊢
          exact ihd _ _ _ h
      | Typ c =>
        cases hlk : lookupKey ct c with
        | none => rw [deserialize_succ_Typ_none _ _ _ _ hlk] at h; simp at h
        | some fs =>
          cases fs with
          | Basic ty =>
            rw [deserialize_succ_Typ_Basic _ _ _ _ _ hlk] at h
            rw [deserialize_succ_Typ_Basic _ _ _ _ _ hlk]
            exact ihd _ _ _ h
          | Object hm =>
            rw [deserialize_succ_Typ_Object _ _ _ _ _ hlk] at h
            rw [deserialize_succ_Typ_Object _ _ _ _ _ hlk]
            cases v with
            | obj o =>
              simp only at h ⊢
              split at h
              · exact absurd h (by simp)
              · rename_i hrange
                rw [if_neg hrange]
                cases htf : DynamicType.deserialize_type_fields fuel c hm o ct
                    with
                | error e => simp [htf] at h
                | ok rem =>
                  rw [iht _ _ _ _ _ htf]
                  simp only [htf] at h
                  exact h
            | null => simp at h
            | bool b => simp at h
            | num n => simp at h
            | str s => simp at h
            | arr l => simp at h
    refine ⟨hdes, ?_, ?_, ?_, ?_⟩
    · intro ty l ct h
      induction l with
      | nil => simp
      | cons hd tl ihl =>
        simp at h ⊢
        cases hd' : DynamicType.deserialize (fuel + 1) ty hd ct with
        | error e => simp [hd'] at h
        | ok u =>
          cases u
          rw [hdes _ _ _ hd']
          simp only [hd'] at h
          exact ihl h
    · intro es l ct h
      induction l with
      | nil => simp
      | cons hd tl ihl =>
        simp at h ⊢
        cases hlk : lookupKey es hd.1 with
        | none => simp [hlk] at h
        | some ty =>
          simp only [hlk] at h ⊢
          cases hd' : DynamicType.deserialize (fuel + 1) ty hd.2 ct with
          | error e => simp [hd'] at h
          | ok u =>
            cases u
            rw [hdes _ _ _ hd']
            simp only [hd'] at h
            exact ihl h
    · intro c m o ct r h
      induction m generalizing o with
      | nil => simpa using h
      | cons hd tl ihl =>
        simp at h ⊢
        cases hrm : removeKey o hd.1 with
        | none =>
          simp only [hrm] at h ⊢
          by_cases hopt : hd.2.is_option
          · simp only [hopt, if_true] at h ⊢
            exact ihl _ h
          · simp [hopt] at h
        | some p =>
          simp only [hrm] at h ⊢
          cases hd' : DynamicType.deserialize (fuel + 1) hd.2 p.1 ct with
          | error e => simp [hd'] at h
          | ok u =>
            cases u
            rw [hdes _ _ _ hd']
            simp only [hd'] at h
            exact ihl _ h
    · intro m o ct r h
      induction m generalizing o with
      | nil => simpa using h
      | cons hd tl ihl =>
        simp at h ⊢
        cases hrm : removeKey o hd.1 with
        | none =>
          simp only [hrm] at h ⊢
          by_cases hopt : hd.2.is_option
          · simp only [hopt, if_true] at h ⊢
            exact ihl _ h
          · simp [hopt] at h
        | some p =>
          simp only [hrm] at h ⊢
          cases hd' : DynamicType.deserialize (fuel + 1) hd.2 p.1 ct with
          | error e => simp [hd'] at h
          | ok u =>
            cases u
            rw [hdes _ _ _ hd']
            simp only [hd'] at h
            exact ihl _ h

/-- Fuel monotonicity of the validator. -/
theorem deserialize_mono {fuel fuel' : Nat} (hle : fuel ≤ fuel')
    {t : DynamicType} {v : Value} {ct : SchemaMap}
    (h : DynamicType.deserialize fuel t v ct = .ok ()) :
    DynamicType.deserialize fuel' t v ct = .ok () := by
  induction fuel', hle using Nat.le_induction with
  | base => exact h
  | succ n hn ih => exact (deserialize_mono_succ n).1 _ _ _ ih

/-- Fuel monotonicity of the declared-field loop (custom type). -/
theorem deserialize_type_fields_mono {fuel fuel' : Nat} (hle : fuel ≤ fuel')
    {c : CTypeName} {m : EnumVariants} {o : JsonObject} {ct : SchemaMap}
    {r : JsonObject}
    (h : DynamicType.deserialize_type_fields fuel c m o ct = .ok r) :
    DynamicType.deserialize_type_fields fuel' c m o ct = .ok r := by
  induction fuel', hle using Nat.le_induction with
  | base => exact h
  | succ n hn ih => exact (deserialize_mono_succ n).2.2.2.1 _ _ _ _ _ ih

/-- Fuel monotonicity of the declared-field loop of Fields::check_value. -/
theorem check_value_fields_mono {fuel fuel' : Nat} (hle : fuel ≤ fuel')
    {m : EnumVariants} {o : JsonObject} {ct : SchemaMap} {r : JsonObject}
    (h : Fields.check_value_fields fuel m o ct = .ok r) :
    Fields.check_value_fields fuel' m o ct = .ok r := by
  induction fuel', hle using Nat.le_induction with
  | base => exact h
  | succ n hn ih => exact (deserialize_mono_succ n).2.2.2.2 _ _ _ _ ih

/-- A successful lookup yields none exactly on a missing key. -/
theorem lookupKey_eq_none_iff {β : Type} (l : List (String × β)) (k : String) :
    lookupKey l k = none ↔ k ∉ l.map Prod.fst := by
  induction l with
  | nil => simp [lookupKey]
  | cons hd tl ih =>
    by_cases hk : hd.1 = k
    · simp [lookupKey, hk]
    · simp [lookupKey, hk, ih, Ne.symm hk]

/-- A successful lookup returns a pair of the list. -/
theorem lookupKey_mem {β : Type} {l : List (String × β)} {k : String} {v : β}
    (h : lookupKey l k = some v) : (k, v) ∈ l := by
  induction l with
  | nil => simp [lookupKey] at h
  | cons hd tl ih =>
    by_cases hk : hd.1 = k
    · simp only [lookupKey, if_pos hk, Option.some.injEq] at h
      have hhd : hd = (k, v) := by
        cases hd
        simp_all
      rw [hhd]
      exact .head _
    · simp only [lookupKey, if_neg hk] at h
      exact .tail _ (ih h)

/-- Membership determines the lookup when the keys are distinct. -/
theorem mem_lookupKey {β : Type} {l : List (String × β)} {k : String} {v : β}
    (hnd : (l.map Prod.fst).Nodup) (h : (k, v) ∈ l) :
    lookupKey l k = some v := by
  induction l with
  | nil => simp at h
  | cons hd tl ih =>
    simp only [List.map_cons, List.nodup_cons] at hnd
    rcases List.mem_cons.mp h with h | h
    · rw [← h]
      simp [lookupKey]
    · have hk : hd.1 ≠ k := by
        intro hc
        apply hnd.1
        rw [hc]
        exact List.mem_map.mpr ⟨(k, v), h, rfl⟩
      simp only [lookupKey, if_neg hk]
      exact ih hnd.2 h

/-- removeKey fails exactly when the key is missing. -/
theorem removeKey_eq_none_iff {β : Type} (l : List (String × β))
    (k : String) : removeKey l k = none ↔ lookupKey l k = none := by
  induction l with
  | nil => simp [removeKey, lookupKey]
  | cons hd tl ih =>
    by_cases hk : hd.1 = k
    · simp [removeKey, lookupKey, hk]
    · simp only [removeKey, lookupKey, if_neg hk]
      rw [← ih]
      cases removeKey tl k <;> simp

/-- The facts produced by a successful removeKey: it removes exactly the
first pair with the given key. -/
theorem removeKey_some_facts {β : Type} {l : List (String × β)} {k : String}
    {v : β} {l' : List (String × β)} (h : removeKey l k = some (v, l')) :
    lookupKey l k = some v ∧ l'.length + 1 = l.length ∧
    (∀ j, j ≠ k → lookupKey l' j = lookupKey l j) ∧
    (∀ q, q ∈ l' → q ∈ l) ∧ (∀ q, q ∈ l → q.1 ≠ k → q ∈ l') ∧
    ((l.map Prod.fst).Nodup →
      (l'.map Prod.fst).Nodup ∧ k ∉ l'.map Prod.fst) := by
  induction l generalizing l' with
  | nil => simp [removeKey] at h
  | cons hd tl ih =>
    by_cases hk : hd.1 = k
    · simp only [removeKey, if_pos hk, Option.some.injEq, Prod.mk.injEq] at h
      obtain ⟨hv, hl⟩ := h
      subst hv hl
      refine ⟨by simp [lookupKey, hk], by simp, ?_, ?_, ?_, ?_⟩
      · intro j hj
        have hne : hd.1 ≠ j := by
          rw [hk]
          exact fun hc => hj hc.symm
        simp [lookupKey, hne]
      · intro q hq
        exact .tail _ hq
      · intro q hq hqk
        rcases List.mem_cons.mp hq with hq | hq
        · exact absurd (hq ▸ hk) hqk
        · exact hq
      · intro hnd
        simp only [List.map_cons, List.nodup_cons] at hnd
        refine ⟨hnd.2, fun hc => hnd.1 (hk ▸ hc)⟩
    · simp only [removeKey, if_neg hk] at h
      cases hrm : removeKey tl k with
      | none => simp [hrm] at h
      | some p =>
        obtain ⟨pv, pl⟩ := p
        simp only [hrm, Option.some.injEq, Prod.mk.injEq] at h
        obtain ⟨hv, hl⟩ := h
        subst hv
        subst hl
        obtain ⟨h1, h2, h3, h4, h5, h6⟩ := ih hrm
        refine ⟨by simp [lookupKey, hk, h1], by simp [← h2], ?_, ?_, ?_, ?_⟩
        · intro j hj
          by_cases hj' : hd.1 = j
          · simp [lookupKey, hj']
          · simp [lookupKey, hj', h3 j hj]
        · intro q hq
          rcases List.mem_cons.mp hq with hq | hq
          · exact hq ▸ .head _
          · exact .tail _ (h4 _ hq)
        · intro q hq hqk
          rcases List.mem_cons.mp hq with hq | hq
          · exact hq ▸ .head _
          · exact .tail _ (h5 _ hq hqk)
        · intro hnd
          simp only [List.map_cons, List.nodup_cons] at hnd
          obtain ⟨hnd1, hnd2⟩ := h6 hnd.2
          refine ⟨?_, ?_⟩
          · simp only [List.map_cons, List.nodup_cons]
            refine ⟨fun hc => ?_, hnd1⟩
            apply hnd.1
            simp only [List.mem_map] at hc ⊢
            obtain ⟨q, hq, hq1⟩ := hc
            exact ⟨q, h4 _ hq, hq1⟩
          · simp only [List.map_cons, List.mem_cons]
            rintro (hc | hc)
            · exact hk hc.symm
            · exact hnd2 hc

/-- A present key can be removed. -/
theorem removeKey_exists {β : Type} {l : List (String × β)} {k : String}
    {v : β} (h : lookupKey l k = some v) :
    ∃ l', removeKey l k = some (v, l') := by
  cases hrm : removeKey l k with
  | none =>
    rw [removeKey_eq_none_iff] at hrm
    simp [hrm] at h
  | some p =>
    obtain ⟨pv, pl⟩ := p
    obtain ⟨h1, _⟩ := removeKey_some_facts hrm
    rw [h1] at h
    cases h
    exact ⟨pl, rfl⟩

/-- Field-wise conformance contract of an object value against a declared
field map: every required (non optional) declared field is present, every
present declared field's value conforms, and no undeclared field appears. -/
def ObjectFieldsOk (m : EnumVariants) (o : JsonObject) (ct : SchemaMap) :
    Prop :=
  (∀ p ∈ m, p.2.is_option = false → p.1 ∈ o.map Prod.fst) ∧
  (∀ p ∈ m, ∀ v, lookupKey o p.1 = some v → Conforms p.2 v ct) ∧
  (∀ q ∈ o, q.1 ∈ m.map Prod.fst)

/-- The declared-field loop of the custom-Object validator consumes the
whole value exactly under the field-wise contract (keys assumed distinct on
both sides, as they are for serde maps and HashMaps). -/
theorem type_fields_ok_iff (c : CTypeName) (m : EnumVariants)
    (o : JsonObject) (ct : SchemaMap) (ho : (o.map Prod.fst).Nodup)
    (hm : (m.map Prod.fst).Nodup) :
    (∃ fuel, DynamicType.deserialize_type_fields fuel c m o ct = .ok []) ↔
      ObjectFieldsOk m o ct := by
  constructor
  · rintro ⟨fuel, h⟩
    induction m generalizing o with
    | nil =>
      simp only [deserialize_type_fields_nil, Except.ok.injEq] at h
      subst h
      exact ⟨by simp, by simp, by simp⟩
    | cons hd tl ih =>
      simp only [deserialize_type_fields_cons] at h
      simp only [List.map_cons, List.nodup_cons] at hm
      cases hrm : removeKey o hd.1 with
      | some p =>
        obtain ⟨v, o'⟩ := p
        simp only [hrm] at h
        cases hdes : DynamicType.deserialize fuel hd.2 v ct with
        | error e => simp [hdes] at h
        | ok u =>
          cases u
          simp only [hdes] at h
          obtain ⟨hf1, _, hf3, hf4, hf5, hf6⟩ := removeKey_some_facts hrm
          obtain ⟨hnd', hk'⟩ := hf6 ho
          obtain ⟨ih1, ih2, ih3⟩ := ih o' hnd' hm.2 h
          refine ⟨?_, ?_, ?_⟩
          · intro p hp hpo
            rcases List.mem_cons.mp hp with hp | hp
            · subst hp
              exact List.mem_map.mpr ⟨(p.1, v), lookupKey_mem hf1, rfl⟩
            · have := ih1 p hp hpo
              simp only [List.mem_map] at this ⊢
              obtain ⟨q, hq, hq1⟩ := this
              exact ⟨q, hf4 _ hq, hq1⟩
          · intro p hp w hw
            rcases List.mem_cons.mp hp with hp | hp
            · subst hp
              rw [hf1] at hw
              cases hw
              exact ⟨fuel, hdes⟩
            · have hne : p.1 ≠ hd.1 := by
                intro hc
                apply hm.1
                rw [← hc]
                exact List.mem_map.mpr ⟨p, hp, rfl⟩
              exact ih2 p hp w (by rw [hf3 p.1 hne, hw])
          · intro q hq
            by_cases hqk : q.1 = hd.1
            · simp [hqk]
            · have := ih3 q (hf5 q hq hqk)
              simp only [List.map_cons, List.mem_cons]
              exact .inr this
      | none =>
        simp only [hrm] at h
        by_cases hopt : hd.2.is_option
        · simp only [hopt, if_true] at h
          obtain ⟨ih1, ih2, ih3⟩ := ih o ho hm.2 h
          have hlk : lookupKey o hd.1 = none :=
            (removeKey_eq_none_iff o hd.1).mp hrm
          refine ⟨?_, ?_, ?_⟩
          · intro p hp hpo
            rcases List.mem_cons.mp hp with hp | hp
            · rw [hp] at hpo
              rw [hpo] at hopt
              simp at hopt
            · exact ih1 p hp hpo
          · intro p hp w hw
            rcases List.mem_cons.mp hp with hp | hp
            · rw [hp] at hw
              rw [hlk] at hw
              cases hw
            · exact ih2 p hp w hw
          · intro q hq
            simp only [List.map_cons, List.mem_cons]
            exact .inr (ih3 q hq)
        · simp [hopt] at h
  · intro hok
    induction m generalizing o with
    | nil =>
      obtain ⟨-, -, h3⟩ := hok
      have : o = [] := by
        cases o with
        | nil => rfl
        | cons q rest => simpa using h3 q (.head _)
      exact ⟨0, by simp [this]⟩
    | cons hd tl ih =>
      obtain ⟨h1, h2, h3⟩ := hok
      simp only [List.map_cons, List.nodup_cons] at hm
      cases hlk : lookupKey o hd.1 with
      | some v =>
        obtain ⟨f1, hdes⟩ := h2 hd (.head _) v hlk
        obtain ⟨o', hrm⟩ := removeKey_exists hlk
        obtain ⟨hf1, _, hf3, hf4, hf5, hf6⟩ := removeKey_some_facts hrm
        obtain ⟨hnd', hk'⟩ := hf6 ho
        have hok' : ObjectFieldsOk tl o' ct := by
          refine ⟨?_, ?_, ?_⟩
          · intro p hp hpo
            have hne : p.1 ≠ hd.1 := by
              intro hc
              apply hm.1
              rw [← hc]
              exact List.mem_map.mpr ⟨p, hp, rfl⟩
            have := h1 p (.tail _ hp) hpo
            simp only [List.mem_map] at this ⊢
            obtain ⟨q, hq, hq1⟩ := this
            exact ⟨q, hf5 q hq (by rw [hq1]; exact hne), hq1⟩
          · intro p hp w hw
            have hne : p.1 ≠ hd.1 := by
              intro hc
              apply hm.1
              rw [← hc]
              exact List.mem_map.mpr ⟨p, hp, rfl⟩
            exact h2 p (.tail _ hp) w (by rw [← hf3 p.1 hne, hw])
          · intro q hq
            have := h3 q (hf4 q hq)
            simp only [List.map_cons, List.mem_cons] at this
            rcases this with hc | hc
            · exact absurd (hc ▸ List.mem_map.mpr ⟨q, hq, rfl⟩) hk'
            · exact hc
        obtain ⟨f2, hloop⟩ := ih o' hnd' hm.2 hok'
        refine ⟨max f1 f2, ?_⟩
        simp only [deserialize_type_fields_cons, hrm]
        rw [deserialize_mono (le_max_left f1 f2) hdes]
        exact deserialize_type_fields_mono (le_max_right f1 f2) hloop
      | none =>
        have hopt : hd.2.is_option = true := by
          by_cases hc : hd.2.is_option = false
          · have := h1 hd (.head _) hc
            exact absurd this ((lookupKey_eq_none_iff o hd.1).mp hlk)
          · simpa using hc
        have hok' : ObjectFieldsOk tl o ct := by
          refine ⟨?_, ?_, ?_⟩
          · exact fun p hp hpo => h1 p (.tail _ hp) hpo
          · exact fun p hp w hw => h2 p (.tail _ hp) w hw
          · intro q hq
            have := h3 q hq
            simp only [List.map_cons, List.mem_cons] at this
            rcases this with hc | hc
            · exfalso
              rw [lookupKey_eq_none_iff] at hlk
              exact hlk (hc ▸ List.mem_map.mpr ⟨q, hq, rfl⟩)
            · exact hc
        obtain ⟨f2, hloop⟩ := ih o ho hm.2 hok'
        refine ⟨f2, ?_⟩
        have hrm : removeKey o hd.1 = none :=
          (removeKey_eq_none_iff o hd.1).mpr hlk
        simp only [deserialize_type_fields_cons, hrm, hopt, if_true]
        exact hloop

/-- The declared-field loop of Fields::check_value succeeds exactly when the
(duplicated) loop of the custom-Object validator does: the two source loops
differ only in their error messages. -/
theorem check_value_fields_ok_iff_type_fields (fuel : Nat) (c : CTypeName)
    (m : EnumVariants) (o : JsonObject) (ct : SchemaMap) (r : JsonObject) :
    Fields.check_value_fields fuel m o ct = .ok r ↔
      DynamicType.deserialize_type_fields fuel c m o ct = .ok r := by
  induction m generalizing o with
  | nil => simp
  | cons hd tl ih =>
    simp only [check_value_fields_cons, deserialize_type_fields_cons]
    cases hrm : removeKey o hd.1 with
    | some p =>
      obtain ⟨v, o'⟩ := p
      cases hdes : DynamicType.deserialize fuel hd.2 v ct with
      | error e => simp [hdes]
      | ok u =>
        cases u
        simp only [hdes]
        exact ih o'
    | none =>
      by_cases hopt : hd.2.is_option
      · simp only [hopt, if_true]
        exact ih o
      · simp [hopt]

/-- Full object-conformance contract: the field count lies in
[total - optional, total] and the field-wise contract holds. -/
def ObjectConformsSpec (m : EnumVariants) (o : JsonObject) (ct : SchemaMap) :
    Prop :=
  (m.length - (count_options m).2 ≤ o.length ∧ o.length ≤ m.length) ∧
  ObjectFieldsOk m o ct

/-- Fields::check_value on an Object definition accepts exactly the values
satisfying the object-conformance contract. -/
theorem fields_object_conforms_iff (m : EnumVariants) (o : JsonObject)
    (ct : SchemaMap) (ho : (o.map Prod.fst).Nodup)
    (hm : (m.map Prod.fst).Nodup) :
    FieldsConforms (.Object m) (.obj o) ct ↔ ObjectConformsSpec m o ct := by
  constructor
  · rintro ⟨fuel, h⟩
    simp only [Fields.check_value, count_options] at h
    split at h
    · exact absurd h (by simp)
    · rename_i hrange
      rw [not_or, Nat.not_lt, Nat.not_lt] at hrange
      cases hcv : Fields.check_value_fields fuel m o ct with
      | error e => simp [hcv] at h
      | ok r =>
        cases r with
        | cons q rest => simp [hcv] at h
        | nil =>
          have htf := (check_value_fields_ok_iff_type_fields fuel "" m o ct
            []).mp hcv
          refine ⟨⟨by simpa [count_options] using hrange.1, hrange.2⟩, ?_⟩
          exact (type_fields_ok_iff "" m o ct ho hm).mp ⟨fuel, htf⟩
  · rintro ⟨⟨hlo, hhi⟩, hok⟩
    obtain ⟨fuel, htf⟩ := (type_fields_ok_iff "" m o ct ho hm).mpr hok
    have hcv := (check_value_fields_ok_iff_type_fields fuel "" m o ct []).mpr
      htf
    refine ⟨fuel, ?_⟩
    simp only [Fields.check_value, count_options]
    rw [if_neg]
    · simp [hcv]
    · rw [not_or, Nat.not_lt, Nat.not_lt]
      exact ⟨by simpa [count_options] using hlo, hhi⟩

/-- The validator on a Reference (Typ) resolving to an Object definition
accepts exactly the values satisfying the object-conformance contract. -/
theorem typ_object_conforms_iff (name : String) (m : EnumVariants)
    (o : JsonObject) (ct : SchemaMap)
    (hlk : lookupKey ct name = some (.Object m))
    (ho : (o.map Prod.fst).Nodup) (hm : (m.map Prod.fst).Nodup) :
    Conforms (.Typ name) (.obj o) ct ↔ ObjectConformsSpec m o ct := by
  constructor
  · rintro ⟨fuel, h⟩
    cases fuel with
    | zero => simp at h
    | succ f =>
      rw [deserialize_succ_Typ_Object f name _ ct m hlk] at h
      simp only at h
      split at h
      · exact absurd h (by simp)
      · rename_i hrange
        rw [not_or, Nat.not_lt, Nat.not_lt] at hrange
        cases htf : DynamicType.deserialize_type_fields f name m o ct with
        | error e => simp [htf] at h
        | ok r =>
          cases r with
          | cons q rest => simp [htf] at h
          | nil =>
            have hok := (type_fields_ok_iff name m o ct ho hm).mp ⟨f, htf⟩
            exact ⟨⟨hrange.1, hrange.2⟩, hok⟩
  · rintro ⟨⟨hlo, hhi⟩, hok⟩
    obtain ⟨f, htf⟩ := (type_fields_ok_iff name m o ct ho hm).mpr hok
    refine ⟨f + 1, ?_⟩
    rw [deserialize_succ_Typ_Object f name _ ct m hlk]
    simp only
    rw [if_neg]
    · simp [htf]
    · rw [not_or, Nat.not_lt, Nat.not_lt]
      exact ⟨hlo, hhi⟩

/-- C4: for an object type definition with `n = m.length` declared fields of
which `k = (count_options m).2` are Optional, and a JSON object value with
distinct keys, validation accepts the value iff its field count lies in
[n - k, n], every declared non-Optional field is present, every present
declared field's value conforms to its declared type, and no undeclared
field is present; any value whose field count lies outside [n - k, n] is
rejected.  This holds both for a top-level Object definition
(Fields::check_value) and for a Reference (Type) resolving to one
(DynamicType::deserialize). -/
theorem c4_object_optional_arity (m : EnumVariants) (o : JsonObject)
    (ct : SchemaMap) (ho : (o.map Prod.fst).Nodup)
    (hm : (m.map Prod.fst).Nodup) :
    (FieldsConforms (.Object m) (.obj o) ct ↔ ObjectConformsSpec m o ct) ∧
    ((o.length < m.length - (count_options m).2 ∨ m.length < o.length) →
      ¬ FieldsConforms (.Object m) (.obj o) ct) ∧
    (∀ name, lookupKey ct name = some (.Object m) →
      (Conforms (.Typ name) (.obj o) ct ↔ ObjectConformsSpec m o ct) ∧
      ((o.length < m.length - (count_options m).2 ∨ m.length < o.length) →
        ¬ Conforms (.Typ name) (.obj o) ct)) := by
  have hiff := fields_object_conforms_iff m o ct ho hm
  refine ⟨hiff, ?_, ?_⟩
  · intro hrange hc
    obtain ⟨⟨hlo, hhi⟩, -⟩ := hiff.mp hc
    rcases hrange with hr | hr
    · exact absurd hlo (by omega)
    · exact absurd hhi (by omega)
  · intro name hlk
    have hiff' := typ_object_conforms_iff name m o ct hlk ho hm
    refine ⟨hiff', ?_⟩
    intro hrange hc
    obtain ⟨⟨hlo, hhi⟩, -⟩ := hiff'.mp hc
    rcases hrange with hr | hr
    · exact absurd hlo (by omega)
    · exact absurd hhi (by omega)

/-- Witness for C4 at the spec's own example: schema
User = Object [name : String, age : Option u64] and value [name = "Ana"]. -/
theorem c4_object_optional_arity_witness :
    ObjectConformsSpec
      [("name", DynamicType.String), ("age", DynamicType.Option .u64)]
      [("name", Value.str "Ana")] [] :=
  (c4_object_optional_arity
      [("name", DynamicType.String), ("age", DynamicType.Option .u64)]
      [("name", Value.str "Ana")] [] (by simp) (by simp)).1.mp
    ⟨1, by simp [Fields.check_value, count_options, removeKey, lookupKey,
      Value.asStr, DynamicType.is_option]⟩

/-- C6: a value validates against a Union (Enum) type in exactly two shapes:
a single-key object whose key names a declared variant and whose payload
conforms to that variant's declared type, or a bare string naming a variant
whose declared type is the Dummy sentinel; everything else is rejected. -/
theorem c6_enum_shapes (vs : EnumVariants) (v : Value) (ct : SchemaMap) :
    Conforms (.Enum vs) v ct ↔
      ((∃ k pv t, v = .obj [(k, pv)] ∧ lookupKey vs k = some t ∧
        Conforms t pv ct) ∨
       (∃ s, v = .str s ∧ lookupKey vs s = some .Dummy)) := by
  constructor
  · rintro ⟨fuel, h⟩
    cases fuel with
    | zero => simp at h
    | succ f =>
      rw [deserialize_succ_Enum] at h
      cases v with
      | obj o =>
        simp only at h
        by_cases hlen : o.length = 1
        · obtain ⟨q, hq⟩ := List.length_eq_one.mp hlen
          subst hq
          rw [if_neg (by simp)] at h
          simp only [deserialize_enum_entries_cons] at h
          cases hlk : lookupKey vs q.1 with
          | none => simp [hlk] at h
          | some t =>
            simp only [hlk] at h
            cases hdes : DynamicType.deserialize f t q.2 ct with
            | error e => simp [hdes] at h
            | ok u =>
              cases u
              exact .inl ⟨q.1, q.2, t, rfl, hlk, ⟨f, hdes⟩⟩
        · rw [if_pos hlen] at h
          simp at h
      | str s =>
        simp only at h
        cases hlk : lookupKey vs s with
        | none => simp [hlk] at h
        | some t =>
          cases t <;> simp only [hlk] at h <;> try simp at h
          exact .inr ⟨s, rfl, hlk⟩
      | null => simp at h
      | bool b => simp at h
      | num n => simp at h
      | arr l => simp at h
  · rintro (⟨k, pv, t, hv, hlk, ⟨f, hdes⟩⟩ | ⟨s, hv, hlk⟩)
    · subst hv
      refine ⟨f + 1, ?_⟩
      rw [deserialize_succ_Enum]
      simp [hlk, hdes]
    · subst hv
      refine ⟨1, ?_⟩
      rw [deserialize_succ_Enum]
      simp [hlk]

/-- Reachability (zero or more edges) in the type-reference graph. -/
inductive Reach (g : List (String × NameList)) : String → String → Prop where
  | refl (a : String) : Reach g a a
  | step {a b c : String} : b ∈ neighborsOf g a → Reach g b c → Reach g a c

/-- Reachability by at least one edge. -/
def ReachPlus (g : List (String × NameList)) (a b : String) : Prop :=
  ∃ m, m ∈ neighborsOf g a ∧ Reach g m b

/-- A node lying on a reference cycle (reaches itself через at least one
edge). -/
def CyclicNode (g : List (String × NameList)) (c : String) : Prop :=
  ReachPlus g c c

/-- A reference cycle exists somewhere in the graph. -/
def HasRefCycle (g : List (String × NameList)) : Prop :=
  ∃ c, CyclicNode g c

/-- Reachability extends along one more edge. -/
theorem reach_snoc {g : List (String × NameList)} {a b c : String}
    (h : Reach g a b) (he : c ∈ neighborsOf g b) : Reach g a c := by
  induction h with
  | refl a => exact .step he (.refl c)
  | step hm _ ih => exact .step hm (ih he)

/-- ReachPlus extends along one more edge. -/
theorem reachPlus_snoc {g : List (String × NameList)} {a b c : String}
    (h : ReachPlus g a b) (he : c ∈ neighborsOf g b) : ReachPlus g a c := by
  obtain ⟨m, hm, hr⟩ := h
  exact ⟨m, hm, reach_snoc hr he⟩

/-- Unfolding equation: the depth-first search out of fuel. -/
@[simp] theorem has_cycle_zero (g : List (String × NameList)) (n : String)
    (V S : NameList) : has_cycle g 0 n V S = none := by
  conv_lhs => unfold has_cycle

/-- Unfolding equation: one step of the depth-first search. -/
theorem has_cycle_succ (g : List (String × NameList)) (f : Nat) (n : String)
    (V S : NameList) :
    has_cycle g (f + 1) n V S =
      if n ∈ S then some (true, V)
      else if n ∈ V then some (false, V)
      else has_cycle_list g f (neighborsOf g n) (n :: V) (n :: S) := by
  conv_lhs => unfold has_cycle

/-- Unfolding equation: empty neighbor loop. -/
@[simp] theorem has_cycle_list_nil (g : List (String × NameList)) (f : Nat)
    (V S : NameList) : has_cycle_list g f [] V S = some (false, V) := by
  conv_lhs => unfold has_cycle_list

/-- Unfolding equation: neighbor loop step. -/
theorem has_cycle_list_cons (g : List (String × NameList)) (f : Nat)
    (nb : String) (rest : NameList) (V S : NameList) :
    has_cycle_list g f (nb :: rest) V S =
      match has_cycle g f nb V S with
      | none => none
      | some (true, v') => some (true, v')
      | some (false, v') => has_cycle_list g f rest v' S := by
  conv_lhs => unfold has_cycle_list

/-- Invariant of the depth-first search: every fully explored node (visited
and off the stack) reaches only fully explored nodes, and no node on a
cycle is fully explored. -/
def DfsGood (g : List (String × NameList)) (V S : NameList) : Prop :=
  (∀ v ∈ V, v ∉ S → ∀ w, Reach g v w → w ∈ V ∧ w ∉ S) ∧
  (∀ c, CyclicNode g c → c ∈ V → c ∈ S)

/-- Pushing an unexplored node onto both the visited set and the stack
preserves the invariant. -/
theorem dfsGood_push {g : List (String × NameList)} {V S : NameList}
    {n : String} (hg : DfsGood g V S) (hnV : n ∉ V) :
    DfsGood g (n :: V) (n :: S) := by
  obtain ⟨h1, h2⟩ := hg
  constructor
  · intro v hv hvs w hw
    have hvn : v ≠ n := fun hc => hvs (hc ▸ List.mem_cons_self n S)
    have hvV : v ∈ V := by
      rcases List.mem_cons.mp hv with hc | hc
      · exact absurd hc hvn
      · exact hc
    have hvS : v ∉ S := fun hc => hvs (List.mem_cons_of_mem n hc)
    obtain ⟨hw1, hw2⟩ := h1 v hvV hvS w hw
    refine ⟨List.mem_cons_of_mem n hw1, ?_⟩
    intro hc
    rcases List.mem_cons.mp hc with hc | hc
    · exact hnV (hc ▸ hw1)
    · exact hw2 hc
  · intro c hc hcv
    rcases List.mem_cons.mp hcv with h | h
    · exact h ▸ List.mem_cons_self n S
    · exact List.mem_cons_of_mem n (h2 c hc h)

/-- A false answer of the depth-first search preserves the invariant, only
grows the visited set, and marks the start node visited (jointly with the
corresponding statement for the neighbor loop). -/
theorem has_cycle_false_good (f : Nat) (g : List (String × NameList)) :
    (∀ n V S V', has_cycle g f n V S = some (false, V') → DfsGood g V S →
      DfsGood g V' S ∧ (∀ x ∈ V, x ∈ V') ∧ n ∈ V' ∧ n ∉ S) ∧
    (∀ nbs V S V', has_cycle_list g f nbs V S = some (false, V') →
      DfsGood g V S →
      DfsGood g V' S ∧ (∀ x ∈ V, x ∈ V') ∧ (∀ m ∈ nbs, m ∈ V' ∧ m ∉ S)) := by
  induction f with
  | zero =>
    constructor
    · intro n V S V' h
      simp at h
    · intro nbs V S V' h hg
      cases nbs with
      | nil =>
        simp at h
        subst h
        exact ⟨hg, fun x hx => hx, by simp⟩
      | cons nb rest =>
        rw [has_cycle_list_cons] at h
        simp at h
  | succ f ih =>
    obtain ⟨ihn, ihl⟩ := ih
    have hstep : ∀ n V S V', has_cycle g (f + 1) n V S = some (false, V') →
        DfsGood g V S →
        DfsGood g V' S ∧ (∀ x ∈ V, x ∈ V') ∧ n ∈ V' ∧ n ∉ S := by
      intro n V S V' h hg
      rw [has_cycle_succ] at h
      by_cases hS : n ∈ S
      · simp [hS] at h
      · rw [if_neg hS] at h
        by_cases hV : n ∈ V
        · simp only [hV, if_true, Option.some.injEq, Prod.mk.injEq] at h
          obtain ⟨-, hV'⟩ := h
          subst hV'
          exact ⟨hg, fun x hx => hx, hV, hS⟩
        · rw [if_neg hV] at h
          obtain ⟨hg', hsub, hmem⟩ :=
            ihl (neighborsOf g n) (n :: V) (n :: S) V' h (dfsGood_push hg hV)
          obtain ⟨hg1, hg2⟩ := hg'
          have hnV' : n ∈ V' := hsub n (List.mem_cons_self n V)
          refine ⟨⟨?_, ?_⟩, fun x hx => hsub x (List.mem_cons_of_mem n hx),
            hnV', hS⟩
          · intro v hv hvs w hw
            by_cases hvn : v = n
            · rw [hvn] at hw
              cases hw with
              | refl => exact ⟨hnV', hS⟩
              | step hm hr =>
                rename_i b
                obtain ⟨hb1, hb2⟩ := hmem b hm
                obtain ⟨hw1, hw2⟩ := hg1 b hb1 hb2 _ hr
                exact ⟨hw1, fun hc => hw2 (List.mem_cons_of_mem n hc)⟩
            · have hvs' : v ∉ n :: S := by
                intro hc
                rcases List.mem_cons.mp hc with hc | hc
                · exact hvn hc
                · exact hvs hc
              obtain ⟨hw1, hw2⟩ := hg1 v hv hvs' w hw
              exact ⟨hw1, fun hc => hw2 (List.mem_cons_of_mem n hc)⟩
          · intro c hc hcv
            have := hg2 c hc hcv
            rcases List.mem_cons.mp this with hcn | hcs
            · subst hcn
              obtain ⟨m, hm, hr⟩ := hc
              obtain ⟨hb1, hb2⟩ := hmem m hm
              obtain ⟨hw1, hw2⟩ := hg1 m hb1 hb2 _ hr
              exact absurd (List.mem_cons_self c S) hw2
            · exact hcs
    refine ⟨hstep, ?_⟩
    intro nbs V S V' h hg
    induction nbs generalizing V with
    | nil =>
      simp at h
      subst h
      exact ⟨hg, fun x hx => hx, by simp⟩
    | cons nb rest ihr =>
      rw [has_cycle_list_cons] at h
      cases hc : has_cycle g (f + 1) nb V S with
      | none => simp [hc] at h
      | some p =>
        obtain ⟨b, v₁⟩ := p
        cases b with
        | true => simp [hc] at h
        | false =>
          simp only [hc] at h
          obtain ⟨hg₁, hsub₁, hnb, hnbs⟩ := hstep nb V S v₁ hc hg
          obtain ⟨hg₂, hsub₂, hmem₂⟩ := ihr v₁ h hg₁
          refine ⟨hg₂, fun x hx => hsub₂ x (hsub₁ x hx), ?_⟩
          intro m hm
          rcases List.mem_cons.mp hm with hm | hm
          · exact ⟨hsub₂ _ (hm ▸ hnb), hm ▸ hnbs⟩
          · exact hmem₂ m hm

/-- A true answer of the depth-first search certifies a reference cycle
reachable from the root of the search (jointly with the corresponding
statement for the neighbor loop). -/
theorem has_cycle_true_reach (f : Nat) (g : List (String × NameList))
    (t : String) :
    (∀ n V S V', has_cycle g f n V S = some (true, V') →
      (∀ s ∈ S, ReachPlus g s n) → Reach g t n →
      ∃ c, CyclicNode g c ∧ Reach g t c) ∧
    (∀ nbs V S V', has_cycle_list g f nbs V S = some (true, V') →
      (∀ nb ∈ nbs, (∀ s ∈ S, ReachPlus g s nb) ∧ Reach g t nb) →
      ∃ c, CyclicNode g c ∧ Reach g t c) := by
  induction f with
  | zero =>
    constructor
    · intro n V S V' h
      simp at h
    · intro nbs V S V' h hnb
      induction nbs with
      | nil => simp at h
      | cons nb rest ihr =>
        rw [has_cycle_list_cons] at h
        simp at h
  | succ f ih =>
    obtain ⟨ihn, ihl⟩ := ih
    have hstep : ∀ n V S V', has_cycle g (f + 1) n V S = some (true, V') →
        (∀ s ∈ S, ReachPlus g s n) → Reach g t n →
        ∃ c, CyclicNode g c ∧ Reach g t c := by
      intro n V S V' h hS htn
      rw [has_cycle_succ] at h
      by_cases hnS : n ∈ S
      · exact ⟨n, hS n hnS, htn⟩
      · rw [if_neg hnS] at h
        by_cases hnV : n ∈ V
        · simp [hnV] at h
        · rw [if_neg hnV] at h
          apply ihl (neighborsOf g n) (n :: V) (n :: S) V' h
          intro nb hnb
          refine ⟨?_, reach_snoc htn hnb⟩
          intro s hs
          rcases List.mem_cons.mp hs with hs | hs
          · exact hs ▸ ⟨nb, hnb, .refl nb⟩
          · exact reachPlus_snoc (hS s hs) hnb
    refine ⟨hstep, ?_⟩
    intro nbs V S V' h hnb
    induction nbs generalizing V with
    | nil => simp at h
    | cons nb rest ihr =>
      rw [has_cycle_list_cons] at h
      cases hc : has_cycle g (f + 1) nb V S with
      | none => simp [hc] at h
      | some p =>
        obtain ⟨b, v₁⟩ := p
        cases b with
        | true =>
          obtain ⟨h1, h2⟩ := hnb nb (.head _)
          exact hstep nb V S v₁ hc h1 h2
        | false =>
          simp only [hc] at h
          exact ihr v₁ h (fun m hm => hnb m (.tail _ hm))

/-- A clean pass of the check_cycle key loop preserves the invariant and
visits every key. -/
theorem check_cycle_loop_none_good (g : List (String × NameList)) (f : Nat)
    (keys V : NameList) (h : check_cycle_loop g f keys V = none)
    (hg : DfsGood g V []) :
    ∃ V', DfsGood g V' [] ∧ (∀ x ∈ V, x ∈ V') ∧ ∀ k ∈ keys, k ∈ V' := by
  induction keys generalizing V with
  | nil => exact ⟨V, hg, fun x hx => hx, by simp⟩
  | cons k rest ih =>
    simp only [check_cycle_loop] at h
    by_cases hkV : k ∈ V
    · rw [if_pos hkV] at h
      obtain ⟨V', h1, h2, h3⟩ := ih V h hg
      exact ⟨V', h1, h2, fun j hj => by
        rcases List.mem_cons.mp hj with hj | hj
        · exact hj ▸ h2 k hkV
        · exact h3 j hj⟩
    · rw [if_neg hkV] at h
      cases hc : has_cycle g f k V [] with
      | none => simp [hc] at h
      | some p =>
        obtain ⟨b, v₁⟩ := p
        cases b with
        | true => simp [hc] at h
        | false =>
          simp only [hc] at h
          obtain ⟨hg₁, hsub₁, hk₁, -⟩ := (has_cycle_false_good f g).1 k V []
            v₁ hc hg
          obtain ⟨V', h1, h2, h3⟩ := ih v₁ h hg₁
          exact ⟨V', h1, fun x hx => h2 x (hsub₁ x hx), fun j hj => by
            rcases List.mem_cons.mp hj with hj | hj
            · exact hj ▸ h2 k hk₁
            · exact h3 j hj⟩

/-- A node on a reference cycle is a key of the graph. -/
theorem cyclicNode_mem_keys {g : List (String × NameList)} {c : String}
    (h : CyclicNode g c) : c ∈ g.map Prod.fst := by
  obtain ⟨m, hm, -⟩ := h
  unfold neighborsOf at hm
  cases hlk : lookupKey g c with
  | none => simp [hlk] at hm
  | some l => exact List.mem_map.mpr ⟨(c, l), lookupKey_mem hlk, rfl⟩

/-- Completeness of check_cycle: a clean pass certifies an acyclic
reference graph. -/
theorem check_cycle_none_acyclic (g : List (String × NameList))
    (h : check_cycle g = none) : ¬ HasRefCycle g := by
  rintro ⟨c, hc⟩
  unfold check_cycle at h
  obtain ⟨V', hgood, -, hkeys⟩ := check_cycle_loop_none_good g
    (cycleFuel g) (g.map Prod.fst) [] h ⟨by simp, by simp⟩
  simpa using hgood.2 c hc (hkeys c (cyclicNode_mem_keys hc))

/-- Soundness of the cycle error: the named type reaches a cycle. -/
theorem check_cycle_circular_reach (g : List (String × NameList))
    (t : String)
    (h : check_cycle g = some (.circularDependency t)) :
    ∃ c, CyclicNode g c ∧ Reach g t c := by
  unfold check_cycle at h
  generalize hV : ([] : NameList) = V at h
  generalize hkeys : g.map Prod.fst = keys at h
  clear hV hkeys
  induction keys generalizing V with
  | nil => simp [check_cycle_loop] at h
  | cons k rest ih =>
    simp only [check_cycle_loop] at h
    by_cases hkV : k ∈ V
    · rw [if_pos hkV] at h
      exact ih V h
    · rw [if_neg hkV] at h
      cases hc : has_cycle g (cycleFuel g) k V [] with
      | none => simp [hc] at h
      | some p =>
        obtain ⟨b, v₁⟩ := p
        cases b with
        | true =>
          simp only [hc, Option.some.injEq, ContractError.circularDependency.injEq] at h
          subst h
          exact (has_cycle_true_reach (cycleFuel g) g k).1 k V [] v₁ hc
            (by simp) (.refl k)
        | false =>
          simp only [hc] at h
          exact ih v₁ h

/-- Referenced custom type names of a type definition body (the list
Fields::check_data returns on success, computed totally). -/
def Fields.refs : Fields → NameList
  | .Basic t => t.refs
  | .Object m => DynamicType.refs.refsList m

/-- Unfolding equation: static check of a leaf type records no reference. -/
@[simp] theorem check_data_leaf (ct : SchemaMap) (acc : NameList) :
    (DynamicType.String.check_data ct acc = .ok acc) ∧
    (DynamicType.i64.check_data ct acc = .ok acc) ∧
    (DynamicType.u64.check_data ct acc = .ok acc) ∧
    (DynamicType.f64.check_data ct acc = .ok acc) ∧
    (DynamicType.bool.check_data ct acc = .ok acc) ∧
    (DynamicType.Dummy.check_data ct acc = .ok acc) := by
  refine ⟨?_, ?_, ?_, ?_, ?_, ?_⟩ <;> conv_lhs => unfold DynamicType.check_data

/-- A successful static check of a Vec passes its inner type. -/
theorem check_data_Vec_ok {c : DynamicType} {ct : SchemaMap}
    {acc res : NameList} (h : (DynamicType.Vec c).check_data ct acc = .ok res) :
    c.check_data ct acc = .ok res := by
  unfold DynamicType.check_data at h
  cases c <;> first | exact h | simp at h

/-- A successful static check of an Option passes its inner type. -/
theorem check_data_Option_ok {c : DynamicType} {ct : SchemaMap}
    {acc res : NameList}
    (h : (DynamicType.Option c).check_data ct acc = .ok res) :
    c.check_data ct acc = .ok res := by
  unfold DynamicType.check_data at h
  cases c <;> first | exact h | simp at h

/-- Unfolding equation: static check of an Enum delegates to the variant
loop. -/
theorem check_data_Enum_eq (es : EnumVariants) (ct : SchemaMap)
    (acc : NameList) :
    (DynamicType.Enum es).check_data ct acc =
      DynamicType.check_data_list es ct acc := by
  conv_lhs => unfold DynamicType.check_data

/-- Unfolding equation: static check of a reference. -/
theorem check_data_Typ_eq (c : String) (ct : SchemaMap) (acc : NameList) :
    (DynamicType.Typ c).check_data ct acc =
      (if c = "" then .error .emptyCustomTypeName
       else if (lookupKey ct c).isNone then
         .error (.undefinedCustomTypeCheck c)
       else .ok (acc ++ [c])) := by
  conv_lhs => unfold DynamicType.check_data

/-- Unfolding equation: empty variant loop. -/
@[simp] theorem check_data_list_nil (ct : SchemaMap) (acc : NameList) :
    DynamicType.check_data_list [] ct acc = .ok acc := by
  conv_lhs => unfold DynamicType.check_data_list

/-- A successful variant-loop step: a non-empty name, no Option variant,
a successful check of the variant type, and the rest of the loop. -/
theorem check_data_list_cons_ok {hd : String × DynamicType}
    {tl : EnumVariants} {ct : SchemaMap} {acc res : NameList}
    (h : DynamicType.check_data_list (hd :: tl) ct acc = .ok res) :
    ∃ acc', hd.2.check_data ct acc = .ok acc' ∧
      DynamicType.check_data_list tl ct acc' = .ok res := by
  unfold DynamicType.check_data_list at h
  obtain ⟨tf, ty⟩ := hd
  by_cases hf : tf = ""
  · simp [hf] at h
  · rw [if_neg hf] at h
    cases ty with
    | Option c => simp at h
    | String =>
      simp only at h ⊢
      cases hck : DynamicType.check_data .String ct acc with
      | error e => simp [hck] at h
      | ok acc' => simp only [hck] at h; exact ⟨acc', rfl, h⟩
    | i64 =>
      simp only at h ⊢
      cases hck : DynamicType.check_data .i64 ct acc with
      | error e => simp [hck] at h
      | ok acc' => simp only [hck] at h; exact ⟨acc', rfl, h⟩
    | u64 =>
      simp only at h ⊢
      cases hck : DynamicType.check_data .u64 ct acc with
      | error e => simp [hck] at h
      | ok acc' => simp only [hck] at h; exact ⟨acc', rfl, h⟩
    | f64 =>
      simp only at h ⊢
      cases hck : DynamicType.check_data .f64 ct acc with
      | error e => simp [hck] at h
      | ok acc' => simp only [hck] at h; exact ⟨acc', rfl, h⟩
    | bool =>
      simp only at h ⊢
      cases hck : DynamicType.check_data .bool ct acc with
      | error e => simp [hck] at h
      | ok acc' => simp only [hck] at h; exact ⟨acc', rfl, h⟩
    | Dummy =>
      simp only at h ⊢
      cases hck : DynamicType.check_data .Dummy ct acc with
      | error e => simp [hck] at h
      | ok acc' => simp only [hck] at h; exact ⟨acc', rfl, h⟩
    | Vec c =>
      simp only at h ⊢
      cases hck : DynamicType.check_data (.Vec c) ct acc with
      | error e => simp [hck] at h
      | ok acc' => simp only [hck] at h; exact ⟨acc', rfl, h⟩
    | Enum es =>
      simp only at h ⊢
      cases hck : DynamicType.check_data (.Enum es) ct acc with
      | error e => simp [hck] at h
      | ok acc' => simp only [hck] at h; exact ⟨acc', rfl, h⟩
    | Typ nm =>
      simp only at h ⊢
      cases hck : DynamicType.check_data (.Typ nm) ct acc with
      | error e => simp [hck] at h
      | ok acc' => simp only [hck] at h; exact ⟨acc', rfl, h⟩

mutual

/-- A successful static check returns exactly the accumulated reference
list of the type expression. -/
theorem check_data_refs (t : DynamicType) (ct : SchemaMap)
    (acc res : NameList) (h : t.check_data ct acc = .ok res) :
    res = acc ++ t.refs := by
  cases t with
  | Vec c =>
    simpa [DynamicType.refs] using
      check_data_refs c ct acc res (check_data_Vec_ok h)
  | Option c =>
    simpa [DynamicType.refs] using
      check_data_refs c ct acc res (check_data_Option_ok h)
  | Enum es =>
    rw [check_data_Enum_eq] at h
    simpa [DynamicType.refs] using check_data_list_refs es ct acc res h
  | Typ c =>
    rw [check_data_Typ_eq] at h
    by_cases hc : c = ""
    · simp [hc] at h
    · rw [if_neg hc] at h
      by_cases hlk : (lookupKey ct c).isNone
      · simp [hlk] at h
      · simp only [hlk, Bool.false_eq_true, if_false, Except.ok.injEq] at h
        simp [← h, DynamicType.refs]
  | String => simp at h; simp [← h, DynamicType.refs]
  | i64 => simp at h; simp [← h, DynamicType.refs]
  | u64 => simp at h; simp [← h, DynamicType.refs]
  | f64 => simp at h; simp [← h, DynamicType.refs]
  | bool => simp at h; simp [← h, DynamicType.refs]
  | Dummy => simp at h; simp [← h, DynamicType.refs]
termination_by sizeOf t

/-- Variant-loop version of `check_data_refs`. -/
theorem check_data_list_refs (l : EnumVariants) (ct : SchemaMap)
    (acc res : NameList)
    (h : DynamicType.check_data_list l ct acc = .ok res) :
    res = acc ++ DynamicType.refs.refsList l := by
  cases l with
  | nil =>
    simp at h
    simp [← h, DynamicType.refs.refsList]
  | cons hd tl =>
    obtain ⟨acc', h1, h2⟩ := check_data_list_cons_ok h
    have e1 := check_data_refs hd.2 ct acc acc' h1
    have e2 := check_data_list_refs tl ct acc' res h2
    rw [e2, e1]
    simp [DynamicType.refs.refsList]
termination_by sizeOf l
decreasing_by
  all_goals
    rw [show l = hd :: tl from by assumption]
    obtain ⟨a, b⟩ := hd
    simp
    try omega

end

/-- Object-field-loop version of `check_data_refs`. -/
theorem check_data_fields_refs (l : EnumVariants) (ct : SchemaMap)
    (acc res : NameList) (h : Fields.check_data_fields l ct acc = .ok res) :
    res = acc ++ DynamicType.refs.refsList l := by
  induction l generalizing acc with
  | nil =>
    simp [Fields.check_data_fields] at h
    simp [← h, DynamicType.refs.refsList]
  | cons hd tl ih =>
    simp only [Fields.check_data_fields] at h
    obtain ⟨field, c_type⟩ := hd
    have hloop : ∃ acc', c_type.check_data ct acc = .ok acc' ∧
        Fields.check_data_fields tl ct acc' = .ok res := by
      cases c_type with
      | Dummy => simp at h
      | String =>
        by_cases hf : field = ""
        · simp [hf] at h
        · rw [if_neg hf] at h
          cases hck : DynamicType.check_data .String ct acc with
          | error e => simp [hck] at h
          | ok acc' => simp only [hck] at h; exact ⟨acc', rfl, h⟩
      | i64 =>
        by_cases hf : field = ""
        · simp [hf] at h
        · rw [if_neg hf] at h
          cases hck : DynamicType.check_data .i64 ct acc with
          | error e => simp [hck] at h
          | ok acc' => simp only [hck] at h; exact ⟨acc', rfl, h⟩
      | u64 =>
        by_cases hf : field = ""
        · simp [hf] at h
        · rw [if_neg hf] at h
          cases hck : DynamicType.check_data .u64 ct acc with
          | error e => simp [hck] at h
          | ok acc' => simp only [hck] at h; exact ⟨acc', rfl, h⟩
      | f64 =>
        by_cases hf : field = ""
        · simp [hf] at h
        · rw [if_neg hf] at h
          cases hck : DynamicType.check_data .f64 ct acc with
          | error e => simp [hck] at h
          | ok acc' => simp only [hck] at h; exact ⟨acc', rfl, h⟩
      | bool =>
        by_cases hf : field = ""
        · simp [hf] at h
        · rw [if_neg hf] at h
          cases hck : DynamicType.check_data .bool ct acc with
          | error e => simp [hck] at h
          | ok acc' => simp only [hck] at h; exact ⟨acc', rfl, h⟩
      | Vec c =>
        by_cases hf : field = ""
        · simp [hf] at h
        · rw [if_neg hf] at h
          cases hck : DynamicType.check_data (.Vec c) ct acc with
          | error e => simp [hck] at h
          | ok acc' => simp only [hck] at h; exact ⟨acc', rfl, h⟩
      | Enum es =>
        by_cases hf : field = ""
        · simp [hf] at h
        · rw [if_neg hf] at h
          cases hck : DynamicType.check_data (.Enum es) ct acc with
          | error e => simp [hck] at h
          | ok acc' => simp only [hck] at h; exact ⟨acc', rfl, h⟩
      | Typ nm =>
        by_cases hf : field = ""
        · simp [hf] at h
        · rw [if_neg hf] at h
          cases hck : DynamicType.check_data (.Typ nm) ct acc with
          | error e => simp [hck] at h
          | ok acc' => simp only [hck] at h; exact ⟨acc', rfl, h⟩
      | Option c =>
        by_cases hf : field = ""
        · simp [hf] at h
        · rw [if_neg hf] at h
          cases hck : DynamicType.check_data (.Option c) ct acc with
          | error e => simp [hck] at h
          | ok acc' => simp only [hck] at h; exact ⟨acc', rfl, h⟩
    obtain ⟨acc', h1, h2⟩ := hloop
    rw [ih acc' h2, check_data_refs _ ct acc acc' h1]
    simp [DynamicType.refs.refsList]

/-- A successful Fields::check_data returns exactly the reference list of
the definition body. -/
theorem fields_check_data_refs (f : Fields) (ct : SchemaMap)
    (res : NameList) (h : f.check_data ct = .ok res) : res = f.refs := by
  cases f with
  | Basic t =>
    simp only [Fields.check_data] at h
    have ht : t.check_data ct [] = .ok res := by
      cases t <;> first | simpa using h | simp at h
    simpa [Fields.refs] using check_data_refs t ct [] res ht
  | Object m =>
    simp only [Fields.check_data] at h
    cases m with
    | nil => simp at h
    | cons hd tl =>
      simpa [Fields.refs] using check_data_fields_refs (hd :: tl) ct [] res h

/-- An Option-typed expression is exactly what is_option recognizes. -/
theorem is_option_true {ty : DynamicType} (h : ty.is_option = true) :
    ∃ x, ty = .Option x := by
  cases ty <;> simp [DynamicType.is_option] at h ⊢

/-- A non-Option type expression per is_option. -/
theorem is_option_false {ty : DynamicType} (h : ty.is_option = false) :
    ∀ x, ty ≠ .Option x := by
  cases ty <;> simp [DynamicType.is_option] at h ⊢

/-- Unfolding equation: variant-loop step on a non-Option variant type. -/
theorem check_data_list_cons_eq (hd : String × DynamicType)
    (tl : EnumVariants) (ct : SchemaMap) (acc : NameList)
    (hty : ∀ x, hd.2 ≠ .Option x) (hf : hd.1 ≠ "") :
    DynamicType.check_data_list (hd :: tl) ct acc =
      match hd.2.check_data ct acc with
      | .error e => .error e
      | .ok acc' => DynamicType.check_data_list tl ct acc' := by
  obtain ⟨tf, ty⟩ := hd
  conv_lhs => unfold DynamicType.check_data_list
  rw [if_neg hf]
  cases ty <;> first | rfl | exact absurd rfl (hty _)

/-- Unfolding equation: variant-loop step on an Option variant type. -/
theorem check_data_list_cons_option (hd : String × DynamicType)
    (x : DynamicType) (tl : EnumVariants) (ct : SchemaMap) (acc : NameList)
    (hx : hd.2 = .Option x) (hf : hd.1 ≠ "") :
    DynamicType.check_data_list (hd :: tl) ct acc =
      .error (.enumVariantOption hd.1) := by
  obtain ⟨tf, ty⟩ := hd
  simp only at hx
  subst hx
  conv_lhs => unfold DynamicType.check_data_list
  rw [if_neg hf]

/-- Unfolding equation: variant-loop step on an empty variant name. -/
theorem check_data_list_cons_empty (hd : String × DynamicType)
    (tl : EnumVariants) (ct : SchemaMap) (acc : NameList) (hf : hd.1 = "") :
    DynamicType.check_data_list (hd :: tl) ct acc =
      .error .emptyEnumVariantName := by
  obtain ⟨tf, ty⟩ := hd
  simp only at hf
  subst hf
  conv_lhs => unfold DynamicType.check_data_list
  rw [if_pos rfl]

mutual

/-- The static check of a type expression never reports the cycle error
(cycles are reported only by check_cycle). -/
theorem check_data_err_not_circ (t : DynamicType) (ct : SchemaMap)
    (acc : NameList) (e : ContractError) (h : t.check_data ct acc = .error e) :
    ∀ s, e ≠ .circularDependency s := by
  cases t with
  | Vec c =>
    rcases (by
      unfold DynamicType.check_data at h
      cases c with
      | Dummy =>
        left
        simp only [Except.error.injEq] at h
        exact h.symm
      | Option c' =>
        left
        simp only [Except.error.injEq] at h
        exact h.symm
      | String => right; exact h
      | i64 => right; exact h
      | u64 => right; exact h
      | f64 => right; exact h
      | bool => right; exact h
      | Vec c' => right; exact h
      | Enum es => right; exact h
      | Typ nm => right; exact h :
      e = .invalidNestedType ∨ c.check_data ct acc = .error e) with he | hrec
    · intro s
      rw [he]
      simp
    · exact check_data_err_not_circ c ct acc e hrec
  | Option c =>
    rcases (by
      unfold DynamicType.check_data at h
      cases c with
      | Dummy =>
        left
        simp only [Except.error.injEq] at h
        exact h.symm
      | Option c' =>
        left
        simp only [Except.error.injEq] at h
        exact h.symm
      | String => right; exact h
      | i64 => right; exact h
      | u64 => right; exact h
      | f64 => right; exact h
      | bool => right; exact h
      | Vec c' => right; exact h
      | Enum es => right; exact h
      | Typ nm => right; exact h :
      e = .invalidNestedType ∨ c.check_data ct acc = .error e) with he | hrec
    · intro s
      rw [he]
      simp
    · exact check_data_err_not_circ c ct acc e hrec
  | Enum es =>
    rw [check_data_Enum_eq] at h
    exact check_data_list_err_not_circ es ct acc e h
  | Typ c =>
    rw [check_data_Typ_eq] at h
    by_cases hc : c = ""
    · simp [hc] at h
      intro s hcontra
      rw [hcontra] at h
      simp at h
    · rw [if_neg hc] at h
      by_cases hlk : (lookupKey ct c).isNone
      · simp only [hlk, if_true, Except.error.injEq] at h
        intro s hcontra
        rw [hcontra] at h
        simp at h
      · simp [hlk] at h
  | String => simp at h
  | i64 => simp at h
  | u64 => simp at h
  | f64 => simp at h
  | bool => simp at h
  | Dummy => simp at h
termination_by sizeOf t

/-- Variant-loop version of `check_data_err_not_circ`. -/
theorem check_data_list_err_not_circ (l : EnumVariants) (ct : SchemaMap)
    (acc : NameList) (e : ContractError)
    (h : DynamicType.check_data_list l ct acc = .error e) :
    ∀ s, e ≠ .circularDependency s := by
  cases l with
  | nil => simp at h
  | cons hd tl =>
    by_cases hf : hd.1 = ""
    · rw [check_data_list_cons_empty hd tl ct acc hf] at h
      simp only [Except.error.injEq] at h
      intro s hcontra
      rw [hcontra] at h
      simp at h
    · cases hopt : hd.2.is_option with
      | true =>
        obtain ⟨x, hx⟩ := is_option_true hopt
        rw [check_data_list_cons_option hd x tl ct acc hx hf] at h
        simp only [Except.error.injEq] at h
        intro s hcontra
        rw [hcontra] at h
        simp at h
      | false =>
        rw [check_data_list_cons_eq hd tl ct acc (is_option_false hopt)
          hf] at h
        cases hck : hd.2.check_data ct acc with
        | error e' =>
          simp only [hck, Except.error.injEq] at h
          exact h ▸ check_data_err_not_circ hd.2 ct acc e' hck
        | ok acc' =>
          simp only [hck] at h
          exact check_data_list_err_not_circ tl ct acc' e h
termination_by sizeOf l
decreasing_by
  all_goals
    rw [show l = hd :: tl from by assumption]
    obtain ⟨a, b⟩ := hd
    simp
    try omega

end

/-- Unfolding equation: object-field loop step on a Dummy field type. -/
theorem check_data_fields_cons_dummy (hd : String × DynamicType)
    (tl : EnumVariants) (ct : SchemaMap) (acc : NameList)
    (hdum : hd.2 = .Dummy) :
    Fields.check_data_fields (hd :: tl) ct acc =
      .error (.dummyObjectField hd.1) := by
  obtain ⟨field, c_type⟩ := hd
  simp only at hdum
  subst hdum
  conv_lhs => unfold Fields.check_data_fields

/-- Unfolding equation: object-field loop step on an empty field name. -/
theorem check_data_fields_cons_empty (hd : String × DynamicType)
    (tl : EnumVariants) (ct : SchemaMap) (acc : NameList)
    (hdum : hd.2 ≠ .Dummy) (hf : hd.1 = "") :
    Fields.check_data_fields (hd :: tl) ct acc = .error .emptyFieldName := by
  obtain ⟨field, c_type⟩ := hd
  simp only at hdum hf
  subst hf
  conv_lhs => unfold Fields.check_data_fields
  cases c_type <;> first | exact absurd rfl hdum | rw [if_pos rfl]

/-- Unfolding equation: object-field loop step in the regular case. -/
theorem check_data_fields_cons_eq (hd : String × DynamicType)
    (tl : EnumVariants) (ct : SchemaMap) (acc : NameList)
    (hdum : hd.2 ≠ .Dummy) (hf : hd.1 ≠ "") :
    Fields.check_data_fields (hd :: tl) ct acc =
      match hd.2.check_data ct acc with
      | .error e => .error e
      | .ok acc' => Fields.check_data_fields tl ct acc' := by
  obtain ⟨field, c_type⟩ := hd
  simp only at hdum hf
  conv_lhs => unfold Fields.check_data_fields
  cases c_type <;> first | exact absurd rfl hdum | rw [if_neg hf]

/-- The object-field loop of Fields::check_data never reports the cycle
error. -/
theorem check_data_fields_err_not_circ (l : EnumVariants) (ct : SchemaMap)
    (acc : NameList) (e : ContractError)
    (h : Fields.check_data_fields l ct acc = .error e) :
    ∀ s, e ≠ .circularDependency s := by
  induction l generalizing acc with
  | nil => simp [Fields.check_data_fields] at h
  | cons hd tl ih =>
    by_cases hdum : hd.2 = .Dummy
    · rw [check_data_fields_cons_dummy hd tl ct acc hdum] at h
      simp only [Except.error.injEq] at h
      intro s hcontra
      rw [hcontra] at h
      simp at h
    · by_cases hf : hd.1 = ""
      · rw [check_data_fields_cons_empty hd tl ct acc hdum hf] at h
        simp only [Except.error.injEq] at h
        intro s hcontra
        rw [hcontra] at h
        simp at h
      · rw [check_data_fields_cons_eq hd tl ct acc hdum hf] at h
        cases hck : hd.2.check_data ct acc with
        | error e' =>
          simp only [hck, Except.error.injEq] at h
          exact h ▸ check_data_err_not_circ hd.2 ct acc e' hck
        | ok acc' =>
          simp only [hck] at h
          exact ih acc' h

/-- Fields::check_data never reports the cycle error. -/
theorem fields_check_data_err_not_circ (f : Fields) (ct : SchemaMap)
    (e : ContractError) (h : f.check_data ct = .error e) :
    ∀ s, e ≠ .circularDependency s := by
  cases f with
  | Basic t =>
    cases t with
    | Dummy =>
      simp only [Fields.check_data, Except.error.injEq] at h
      intro s hcontra
      rw [hcontra] at h
      simp at h
    | Option c =>
      simp only [Fields.check_data, Except.error.injEq] at h
      intro s hcontra
      rw [hcontra] at h
      simp at h
    | Typ c =>
      simp only [Fields.check_data, Except.error.injEq] at h
      intro s hcontra
      rw [hcontra] at h
      simp at h
    | String =>
      simp only [Fields.check_data] at h
      exact check_data_err_not_circ _ ct [] e h
    | i64 =>
      simp only [Fields.check_data] at h
      exact check_data_err_not_circ _ ct [] e h
    | u64 =>
      simp only [Fields.check_data] at h
      exact check_data_err_not_circ _ ct [] e h
    | f64 =>
      simp only [Fields.check_data] at h
      exact check_data_err_not_circ _ ct [] e h
    | bool =>
      simp only [Fields.check_data] at h
      exact check_data_err_not_circ _ ct [] e h
    | Vec c =>
      simp only [Fields.check_data] at h
      exact check_data_err_not_circ _ ct [] e h
    | Enum es =>
      simp only [Fields.check_data] at h
      exact check_data_err_not_circ _ ct [] e h
  | Object m =>
    cases m with
    | nil =>
      simp only [Fields.check_data, Except.error.injEq] at h
      intro s hcontra
      rw [hcontra] at h
      simp at h
    | cons hd tl =>
      simp only [Fields.check_data] at h
      exact check_data_fields_err_not_circ (hd :: tl) ct [] e h

/-- A successful add_types loop builds exactly the reference graph of the
checked schema fragment. -/
theorem add_types_loop_graph (temporal : SchemaMap) (l : SchemaMap)
    (g : List (String × NameList)) (h : add_types_loop temporal l = .ok g) :
    g = l.map (fun p => (p.1, p.2.refs)) := by
  induction l generalizing g with
  | nil => simpa [add_types_loop] using h.symm
  | cons hd tl ih =>
    simp only [add_types_loop] at h
    by_cases h1 : hd.1 = ""
    · simp [h1] at h
    · rw [if_neg h1] at h
      by_cases h2 : reservedName hd.1
      · simp [h2] at h
      · rw [if_neg h2] at h
        cases hck : hd.2.check_data temporal with
        | error e => simp [hck] at h
        | ok internal =>
          simp only [hck] at h
          cases hrec : add_types_loop temporal tl with
          | error e => simp [hrec] at h
          | ok g' =>
            simp only [hrec, Except.ok.injEq] at h
            rw [← h, ih g' hrec,
              fields_check_data_refs hd.2 temporal internal hck]
            simp

/-- The add_types loop never reports the cycle error. -/
theorem add_types_loop_err_not_circ (temporal : SchemaMap) (l : SchemaMap)
    (e : ContractError) (h : add_types_loop temporal l = .error e) :
    ∀ s, e ≠ .circularDependency s := by
  revert h
  induction l generalizing e with
  | nil =>
    intro h
    simp [add_types_loop] at h
  | cons hd tl ih =>
    intro h
    simp only [add_types_loop] at h
    by_cases h1 : hd.1 = ""
    · simp only [h1, if_pos rfl, Except.error.injEq] at h
      intro s hcontra
      rw [hcontra] at h
      simp at h
    · rw [if_neg h1] at h
      by_cases h2 : reservedName hd.1
      · simp only [h2, if_true, Except.error.injEq] at h
        intro s hcontra
        rw [hcontra] at h
        simp at h
      · rw [if_neg h2] at h
        cases hck : hd.2.check_data temporal with
        | error e' =>
          simp only [hck, Except.error.injEq] at h
          exact h ▸ fields_check_data_err_not_circ hd.2 temporal e' hck
        | ok internal =>
          simp only [hck] at h
          cases hrec : add_types_loop temporal tl with
          | error e' =>
            simp only [hrec, Except.error.injEq] at h
            intro s
            rw [← h]
            exact ih e' hrec s
          | ok g' => simp [hrec] at h

/-- The type-reference graph of a schema fragment (what add_types hands to
check_cycle, computed totally). -/
def refGraph (m : SchemaMap) : List (String × NameList) :=
  m.map (fun p => (p.1, p.2.refs))

/-- The merged schema an add_types batch is checked against: the batch
inserted, in order, into the state's schema (the temporal_types of the
source). -/
def mergedSchema (state : ProductionSystem)
    (types : List (String × Fields)) : SchemaMap :=
  types.foldl (fun acc (p : String × Fields) => insertKey acc p.1 p.2)
    state.custom_types

/-- Literal-fuel unfolding of the depth-first search. -/
theorem has_cycle_pos (g : List (String × NameList)) (f : Nat) (n : String)
    (V S : NameList) (hf : f ≠ 0) :
    has_cycle g f n V S =
      if n ∈ S then some (true, V)
      else if n ∈ V then some (false, V)
      else has_cycle_list g (f - 1) (neighborsOf g n) (n :: V) (n :: S) := by
  cases f with
  | zero => exact absurd rfl hf
  | succ f' => rw [has_cycle_succ]; rfl

/-- C5 (amended): a schema-add batch whose merged schema contains a
reference cycle is rejected by add_types with some error, the state is
returned unchanged, and whenever the reported error is the cycle error
naming t, a cycle is reachable from t in the merged reference graph (t
itself need not lie on the cycle). -/
theorem c5_schema_cycle_rejected (state : ProductionSystem)
    (types : List (String × Fields))
    (hcyc : HasRefCycle (refGraph (mergedSchema state types))) :
    (add_types state types).2.isSome = true ∧
    (add_types state types).1 = state ∧
    (∀ t, (add_types state types).2 = some (.circularDependency t) →
      ∃ c, CyclicNode (refGraph (mergedSchema state types)) c ∧
        Reach (refGraph (mergedSchema state types)) t c) := by
  cases types with
  | nil =>
    refine ⟨by simp [add_types], by simp [add_types], ?_⟩
    intro t ht
    simp [add_types] at ht
  | cons hd tl =>
    have htemp : mergedSchema state (hd :: tl) =
        (hd :: tl).foldl
          (fun acc (p : String × Fields) => insertKey acc p.1 p.2)
          state.custom_types := rfl
    simp only [add_types]
    cases hloop : add_types_loop
        ((hd :: tl).foldl
          (fun acc (p : String × Fields) => insertKey acc p.1 p.2)
          state.custom_types)
        ((hd :: tl).foldl
          (fun acc (p : String × Fields) => insertKey acc p.1 p.2)
          state.custom_types) with
    | error e =>
      refine ⟨by simp, by simp, ?_⟩
      intro t ht
      simp only [Option.some.injEq] at ht
      exact absurd ht (add_types_loop_err_not_circ _ _ e hloop t)
    | ok cycle_types =>
      have hg : cycle_types = refGraph (mergedSchema state (hd :: tl)) := by
        rw [add_types_loop_graph _ _ _ hloop, htemp, refGraph]
      cases hcc : check_cycle cycle_types with
      | none =>
        exfalso
        apply check_cycle_none_acyclic cycle_types hcc
        rw [hg]
        exact hcyc
      | some e =>
        refine ⟨by simp [hcc], by simp [hcc], ?_⟩
        intro t ht
        simp only [hcc, Option.some.injEq] at ht
        rw [ht] at hcc
        have := check_cycle_circular_reach cycle_types t hcc
        rw [hg] at this
        exact this

/-- An otherwise empty document at a given version, used as a concrete test
fixture. -/
def emptyDoc (version : Nat) : ProductionSystem :=
  { name := "ps", custom_types := [], version := version, unit_process := [],
    properties := [] }

/-- The two-type batch X := Object [a : Type "A"], A := Object [a : Type "A"]:
its merged schema has the self-cycle A → A, and X merely reaches it. -/
def c5Batch : List (String × Fields) :=
  [("X", .Object [("a", .Typ "A")]), ("A", .Object [("a", .Typ "A")])]

/-- C5 counterexample: on the batch `c5Batch` (cycle A → A, with X → A),
add_types rejects naming type X in the cycle error, but X lies on no cycle
(only A does): the claim that the cycle error names a type on the cycle is
false — the named type is merely the first key from which the search
entered the cycle. -/
theorem c5_counterexample :
    add_types (emptyDoc 1) c5Batch =
      (emptyDoc 1, some (.circularDependency "X")) ∧
    ¬ CyclicNode (refGraph (mergedSchema (emptyDoc 1) c5Batch)) "X" ∧
    CyclicNode (refGraph (mergedSchema (emptyDoc 1) c5Batch)) "A" := by
  have hgraph : refGraph (mergedSchema (emptyDoc 1) c5Batch) =
      [("X", ["A"]), ("A", ["A"])] := rfl
  have hcc : check_cycle [("X", ["A"]), ("A", ["A"])] =
      some (.circularDependency "X") := by
    simp [check_cycle, cycleFuel, check_cycle_loop, has_cycle_pos,
      has_cycle_list_cons, has_cycle_list_nil, neighborsOf, lookupKey]
  have hloop : add_types_loop
      [("X", Fields.Object [("a", DynamicType.Typ "A")]),
       ("A", Fields.Object [("a", DynamicType.Typ "A")])]
      [("X", Fields.Object [("a", DynamicType.Typ "A")]),
       ("A", Fields.Object [("a", DynamicType.Typ "A")])] =
      .ok [("X", ["A"]), ("A", ["A"])] := rfl
  have hreachA : ∀ a w, Reach [("X", ["A"]), ("A", ["A"])] a w → a = "A" →
      w = "A" := by
    intro a w hw
    induction hw with
    | refl => exact fun h => h
    | step hm _ ih =>
      intro ha
      subst ha
      apply ih
      simpa [neighborsOf, lookupKey] using hm
  refine ⟨?_, ?_, ?_⟩
  · simp [add_types, c5Batch, emptyDoc, insertKey, hloop, hcc]
  · rw [hgraph]
    rintro ⟨m, hm, hr⟩
    have hmA : m = "A" := by simpa [neighborsOf, lookupKey] using hm
    subst hmA
    exact absurd (hreachA _ _ hr rfl) (by simp)
  · rw [hgraph]
    exact ⟨"A", by simp [neighborsOf, lookupKey], .refl "A"⟩

/-- Witness for C5 at a concrete self-referential batch. -/
theorem c5_schema_cycle_rejected_witness :
    (add_types (emptyDoc 2)
      [("A", Fields.Object [("a", DynamicType.Typ "A")])]).2.isSome = true :=
  (c5_schema_cycle_rejected (emptyDoc 2)
    [("A", Fields.Object [("a", DynamicType.Typ "A")])]
    ⟨"A", "A", by simp [refGraph, mergedSchema, insertKey, neighborsOf,
      lookupKey, Fields.refs, DynamicType.refs, DynamicType.refs.refsList],
      .refl "A"⟩).1

/-- add_types never touches the version. -/
theorem add_types_version (s : ProductionSystem)
    (types : List (String × Fields)) :
    (add_types s types).1.version = s.version := by
  unfold add_types
  split
  · rfl
  · dsimp only
    split
    · rfl
    · split <;> rfl

/-- The add_unit_process loop never touches the version. -/
theorem add_unit_process_loop_version (f : Nat) (s : ProductionSystem)
    (add : List UnitProcess) :
    (add_unit_process_loop f s add).1.version = s.version := by
  induction add generalizing s with
  | nil => rfl
  | cons hd tl ih =>
    unfold add_unit_process_loop
    split
    · rfl
    · exact ih _

/-- add_unit_process never touches the version. -/
theorem add_unit_process_version (f : Nat) (s : ProductionSystem)
    (add : List UnitProcess) :
    (add_unit_process f s add).1.version = s.version := by
  unfold add_unit_process
  split
  · rfl
  · cases h : add_unit_process_loop f s add with
    | mk s' e =>
      have hv := add_unit_process_loop_version f s add
      rw [h] at hv
      cases e with
      | none =>
        simp only [h]
        split <;> simpa using hv
      | some e' =>
        simp only [h]
        simpa using hv

/-- The add_new_properties loop never touches the version. -/
theorem add_new_properties_loop_version (f : Nat) (s : ProductionSystem)
    (properties : List Properties) :
    (add_new_properties_loop f s properties).1.version = s.version := by
  induction properties generalizing s with
  | nil => rfl
  | cons hd tl ih =>
    unfold add_new_properties_loop
    split
    · rfl
    · exact ih _

/-- add_new_properties never touches the version. -/
theorem add_new_properties_version (f : Nat) (s : ProductionSystem)
    (properties : List Properties) :
    (add_new_properties f s properties).1.version = s.version := by
  unfold add_new_properties
  split
  · rfl
  · cases h : add_new_properties_loop f s properties with
    | mk s' e =>
      have hv := add_new_properties_loop_version f s properties
      rw [h] at hv
      cases e with
      | none =>
        simp only [h]
        split <;> simpa using hv
      | some e' =>
        simp only [h]
        simpa using hv

/-- psBind preserves any state invariant preserved by both sides. -/
theorem psBind_version (r : ProductionSystem × Option ContractError)
    (f : ProductionSystem → ProductionSystem × Option ContractError)
    (v : Nat) (hr : r.1.version = v)
    (hf : ∀ s', (f s').1.version = s'.version) :
    (psBind r f).1.version = v := by
  unfold psBind
  cases r with
  | mk s e =>
    cases e with
    | none => rw [hf s]; exact hr
    | some e' => exact hr

/-- The property delete loop never touches the version. -/
theorem delete_properties_loop_version (s : ProductionSystem)
    (names : List String) :
    (delete_properties_loop s names).1.version = s.version := by
  induction names generalizing s with
  | nil => rfl
  | cons hd tl ih =>
    unfold delete_properties_loop
    split
    · exact ih _
    · rfl

/-- The property modify loop never touches the version. -/
theorem modify_properties_loop_version (f : Nat) (s : ProductionSystem)
    (l : List (String × Properties)) :
    (modify_properties_loop f s l).1.version = s.version := by
  induction l generalizing s with
  | nil => rfl
  | cons hd tl ih =>
    unfold modify_properties_loop
    split
    · rfl
    · split
      · exact ih _
      · rfl

/-- The type delete loop never touches the version. -/
theorem delete_types_loop_version (s : ProductionSystem)
    (names : List String) :
    (delete_types_loop s names).1.version = s.version := by
  induction names generalizing s with
  | nil => rfl
  | cons hd tl ih =>
    unfold delete_types_loop
    split
    · rfl
    · exact ih _

/-- The unit process delete loop never touches the version. -/
theorem delete_unit_process_loop_version (s : ProductionSystem)
    (names : List String) :
    (delete_unit_process_loop s names).1.version = s.version := by
  induction names generalizing s with
  | nil => rfl
  | cons hd tl ih =>
    unfold delete_unit_process_loop
    split
    · exact ih _
    · rfl

/-- The unit process modify loop never touches the version. -/
theorem modify_unit_process_loop_version (f : Nat) (s : ProductionSystem)
    (l : List (String × UnitProcess)) :
    (modify_unit_process_loop f s l).1.version = s.version := by
  induction l generalizing s with
  | nil => rfl
  | cons hd tl ih =>
    unfold modify_unit_process_loop
    split
    · rfl
    · split
      · exact ih _
      · rfl

/-- The register batch loop never touches the version. -/
theorem register_data_batch_version (f : Nat) (s : ProductionSystem)
    (data : List UnitData) :
    (register_data_batch f s data).1.version = s.version := by
  induction data generalizing s with
  | nil => rfl
  | cons hd tl ih =>
    unfold register_data_batch
    split
    · exact ih _
    · rfl
    · rfl

/-- Event dispatch never touches the version (the increment happens before
dispatch). -/
theorem dispatch_event_version (f : Nat) (e : Events)
    (s : ProductionSystem) : (dispatch_event f e s).1.version = s.version := by
  cases e with
  | RegisterData data =>
    simp only [dispatch_event]
    unfold apply_register_data
    split
    · rfl
    · split
      · rfl
      · exact register_data_batch_version f s data
  | ChangeProductionSystem op =>
    cases op with
    | Init name up types props =>
      simp only [dispatch_event]
      unfold apply_init
      split
      · rfl
      · apply psBind_version
        · cases types with
          | none => rfl
          | some ts => exact add_types_version _ ts
        · intro s'
          apply psBind_version
          · cases up with
            | none => rfl
            | some l => exact add_unit_process_version f _ l
          · intro s''
            cases props with
            | none => rfl
            | some l => exact add_new_properties_version f _ l
    | ModifyProductionSystem name dp mp ap =>
      simp only [dispatch_event]
      unfold apply_modify_production_system
      split
      · rfl
      · apply psBind_version
        · cases name with
          | none => rfl
          | some n =>
            simp only
            split
            · rfl
            · rfl
        · intro s'
          apply psBind_version
          · cases dp with
            | none => rfl
            | some l =>
              cases l with
              | nil => rfl
              | cons hd tl => exact delete_properties_loop_version _ _
          · intro s''
            apply psBind_version
            · cases mp with
              | none => rfl
              | some l =>
                cases l with
                | nil => rfl
                | cons hd tl => exact modify_properties_loop_version f _ _
            · intro s3
              cases ap with
              | none => rfl
              | some l => exact add_new_properties_version f _ l
    | ModifyTypes del add =>
      simp only [dispatch_event]
      unfold apply_modify_types
      split
      · rfl
      · apply psBind_version
        · cases del with
          | none => rfl
          | some l => exact delete_types_loop_version _ l
        · intro s'
          cases add with
          | none => rfl
          | some l => exact add_types_version _ l
    | ModifyUnitProcess del mods add =>
      simp only [dispatch_event]
      unfold apply_modify_unit_process
      split
      · rfl
      · apply psBind_version
        · cases del with
          | none => rfl
          | some l =>
            cases l with
            | nil => rfl
            | cons hd tl => exact delete_unit_process_loop_version _ _
        · intro s'
          apply psBind_version
          · cases mods with
            | none => rfl
            | some l =>
              cases l with
              | nil => rfl
              | cons hd tl => exact modify_unit_process_loop_version f _ _
          · intro s''
            cases add with
            | none => rfl
            | some l => exact add_unit_process_version f _ l

/-- contract_logic_run pairs an error with a false success flag. -/
theorem contract_logic_run_error_success (f : Nat) (e : Events)
    (s : ProductionSystem) :
    ((contract_logic_run f e s).error.isSome ↔
      (contract_logic_run f e s).success = false) := by
  unfold contract_logic_run
  cases hd : dispatch_event f e
      (if e.isChange = true then bump_version s else s) with
  | mk s' err =>
    simp only [hd]
    cases err with
    | none => simp
    | some e' => simp

/-- contract_logic_run's version bookkeeping: the version of the result is
the incremented version for structural events, the input version otherwise. -/
theorem contract_logic_run_version (f : Nat) (e : Events)
    (s : ProductionSystem) :
    (contract_logic_run f e s).state.version =
      (if e.isChange then (s.version + 1) % 4294967296 else s.version) := by
  unfold contract_logic_run
  by_cases hc : e.isChange = true
  · simp only [hc, if_true]
    cases hd : dispatch_event f e (bump_version s) with
    | mk s' err =>
      have hv := dispatch_event_version f e (bump_version s)
      rw [hd] at hv
      cases err with
      | none => simpa [bump_version] using hv
      | some e' => simpa [bump_version] using hv
  · simp only [Bool.not_eq_true] at hc
    simp only [hc, Bool.false_eq_true, if_false]
    cases hd : dispatch_event f e s with
    | mk s' err =>
      have hv := dispatch_event_version f e s
      rw [hd] at hv
      cases err with
      | none => simpa using hv
      | some e' => simpa using hv

/-- C1 (amended): a failing event application carries a non-empty error
exactly when success is false, and the committed document — the host keeps
the prior document on failure — is unchanged.  The draft document returned
inside the result may differ from the input (see the counterexample: the
version increment precedes validation). -/
theorem c1_failure_unchanged_committed (f : Nat) (ctx : Context)
    (s : ProductionSystem) :
    ((contract_logic f ctx s).error.isSome ↔
      (contract_logic f ctx s).success = false) ∧
    ((contract_logic f ctx s).success = false →
      committed_document s (contract_logic f ctx s) = s) := by
  have herr : (contract_logic f ctx s).error.isSome ↔
      (contract_logic f ctx s).success = false := by
    unfold contract_logic
    by_cases hinit : ctx.event.isInit = true
    · simp only [hinit, if_true]
      by_cases hv : s.version ≠ 0
      · simp [hv]
      · simp only [hv, if_false]
        exact contract_logic_run_error_success f ctx.event s
    · simp only [Bool.not_eq_true] at hinit
      simp only [hinit, Bool.false_eq_true, if_false]
      by_cases hv : s.version = 0
      · simp [hv]
      · simp only [hv, if_false]
        exact contract_logic_run_error_success f ctx.event s
  refine ⟨herr, ?_⟩
  intro hf
  simp [committed_document, hf]

/-- Witness for C1 at a concrete failing event (ModifyTypes with no
parameters at version 3). -/
theorem c1_failure_unchanged_committed_witness :
    committed_document (emptyDoc 3)
      (contract_logic 1
        ⟨.ChangeProductionSystem (.ModifyTypes none none), false⟩
        (emptyDoc 3)) = emptyDoc 3 :=
  (c1_failure_unchanged_committed 1
    ⟨.ChangeProductionSystem (.ModifyTypes none none), false⟩
    (emptyDoc 3)).2 rfl

/-- C1 counterexample: the failing ModifyTypes-with-no-parameters event at
version 1 reports a non-empty error with success false, yet the document
carried in the result is NOT bit-for-bit identical to the input: its
version field was already incremented to 2 before validation failed. -/
theorem c1_counterexample :
    contract_logic 1
      ⟨.ChangeProductionSystem (.ModifyTypes none none), false⟩
      (emptyDoc 1) =
      { state := emptyDoc 2, success := false,
        error := some .modifyTypesNoParams } ∧
    emptyDoc 2 ≠ emptyDoc 1 := by
  refine ⟨rfl, ?_⟩
  intro h
  have : (2 : Nat) = 1 := congrArg ProductionSystem.version h
  simp at this

/-- C2 (amended): a successful structural event sets the version to
(prior + 1) mod 2^32 — the u32 increment — and a successful RegisterData
leaves the version unchanged. -/
theorem c2_version_semantics (f : Nat) (ctx : Context)
    (s : ProductionSystem)
    (hs : (contract_logic f ctx s).success = true) :
    (ctx.event.isChange = true →
      (contract_logic f ctx s).state.version =
        (s.version + 1) % 4294967296) ∧
    (ctx.event.isChange = false →
      (contract_logic f ctx s).state.version = s.version) := by
  have hrun : ∀ e, contract_logic f ctx s = contract_logic_run f e s →
      e = ctx.event →
      (ctx.event.isChange = true →
        (contract_logic f ctx s).state.version =
          (s.version + 1) % 4294967296) ∧
      (ctx.event.isChange = false →
        (contract_logic f ctx s).state.version = s.version) := by
    intro e heq hee
    subst hee
    rw [heq]
    have := contract_logic_run_version f ctx.event s
    constructor
    · intro hc
      rw [this, if_pos hc]
    · intro hc
      rw [this, hc]
      simp
  unfold contract_logic at hs ⊢
  by_cases hinit : ctx.event.isInit = true
  · simp only [hinit, if_true] at hs ⊢
    by_cases hv : s.version ≠ 0
    · simp [hv] at hs
    · simp only [hv, if_false] at hs ⊢
      have := contract_logic_run_version f ctx.event s
      constructor
      · intro hc
        rw [this, if_pos hc]
      · intro hc
        rw [this, hc]
        simp
  · simp only [Bool.not_eq_true] at hinit
    simp only [hinit, Bool.false_eq_true, if_false] at hs ⊢
    by_cases hv : s.version = 0
    · simp [hv] at hs
    · simp only [hv, if_false] at hs ⊢
      have := contract_logic_run_version f ctx.event s
      constructor
      · intro hc
        rw [this, if_pos hc]
      · intro hc
        rw [this, hc]
        simp

/-- Witness for C2 at a concrete successful structural event. -/
theorem c2_version_semantics_witness :
    (contract_logic 1
      ⟨.ChangeProductionSystem (.ModifyTypes (some []) none), false⟩
      (emptyDoc 5)).state.version = (5 + 1) % 4294967296 :=
  (c2_version_semantics 1
    ⟨.ChangeProductionSystem (.ModifyTypes (some []) none), false⟩
    (emptyDoc 5) rfl).1 rfl

/-- C2 counterexample: at the u32 boundary the increment wraps.  The
structural event succeeds, but the resulting version is 0, not
prior + 1 = 2^32 (u32 release-build overflow wraps; the claim's "plus
exactly 1" fails at version 4294967295). -/
theorem c2_counterexample :
    (contract_logic 1
      ⟨.ChangeProductionSystem (.ModifyTypes (some []) none), false⟩
      (emptyDoc 4294967295)).success = true ∧
    (contract_logic 1
      ⟨.ChangeProductionSystem (.ModifyTypes (some []) none), false⟩
      (emptyDoc 4294967295)).state.version = 0 ∧
    (emptyDoc 4294967295).version + 1 = 4294967296 := by
  exact ⟨rfl, rfl, rfl⟩

/-- C3: an Init event on a document whose version is not 0 is rejected with
the ordering error and the returned state is untouched; a non-Init event on
a version-0 document is rejected with the ordering error and the returned
state is untouched. -/
theorem c3_ordering (f : Nat) (ctx : Context) (s : ProductionSystem) :
    (ctx.event.isInit = true → s.version ≠ 0 →
      contract_logic f ctx s =
        { state := s, success := false,
          error := some .initWhenVersionNotZero }) ∧
    (ctx.event.isInit = false → s.version = 0 →
      contract_logic f ctx s =
        { state := s, success := false,
          error := some .firstEventMustBeInit }) := by
  constructor
  · intro hinit hv
    unfold contract_logic
    simp [hinit, hv]
  · intro hinit hv
    unfold contract_logic
    simp [hinit, hv]

/-- Witness for C3: Init at version 1 and RegisterData at version 0. -/
theorem c3_ordering_witness :
    contract_logic 1
      ⟨.ChangeProductionSystem (.Init "x" none none none), false⟩
      (emptyDoc 1) =
      { state := emptyDoc 1, success := false,
        error := some .initWhenVersionNotZero } ∧
    contract_logic 1 ⟨.RegisterData [], false⟩ (emptyDoc 0) =
      { state := emptyDoc 0, success := false,
        error := some .firstEventMustBeInit } :=
  ⟨(c3_ordering 1
      ⟨.ChangeProductionSystem (.Init "x" none none none), false⟩
      (emptyDoc 1)).1 rfl (by decide),
   (c3_ordering 1 ⟨.RegisterData [], false⟩ (emptyDoc 0)).2 rfl rfl⟩

/-- C10 (amended): for an Active document, ModifyTypes with a present but
empty delete list and no add succeeds — unlike the other events' empty
sub-batches it is not rejected — incrementing the version modulo 2^32 and
changing nothing else. -/
theorem c10_empty_delete_accepted (f : Nat) (s : ProductionSystem)
    (owner : Bool) (hv : s.version ≠ 0) :
    contract_logic f
      ⟨.ChangeProductionSystem (.ModifyTypes (some []) none), owner⟩ s =
      { state := { s with version := (s.version + 1) % 4294967296 },
        success := true, error := none } := by
  unfold contract_logic
  have h1 : (Events.ChangeProductionSystem
      (.ModifyTypes (some []) none)).isInit = false := rfl
  simp only [h1, Bool.false_eq_true, if_false]
  rw [if_neg hv]
  rfl

/-- Witness for C10 at version 7. -/
theorem c10_empty_delete_accepted_witness :
    contract_logic 1
      ⟨.ChangeProductionSystem (.ModifyTypes (some []) none), true⟩
      (emptyDoc 7) =
      { state := { emptyDoc 7 with version := (7 + 1) % 4294967296 },
        success := true, error := none } :=
  c10_empty_delete_accepted 1 (emptyDoc 7) true (by decide)

/-- C10 counterexample: at version 4294967295 the empty-delete ModifyTypes
event still succeeds but the version wraps to 0 instead of increasing by 1
(u32 overflow), refuting the claim's unqualified "incrementing version by
1" for every Active document. -/
theorem c10_counterexample :
    (contract_logic 1
      ⟨.ChangeProductionSystem (.ModifyTypes (some []) none), true⟩
      (emptyDoc 4294967295)).success = true ∧
    (contract_logic 1
      ⟨.ChangeProductionSystem (.ModifyTypes (some []) none), true⟩
      (emptyDoc 4294967295)).state.version ≠
      (emptyDoc 4294967295).version + 1 := by
  refine ⟨rfl, ?_⟩
  intro h
  have h0 : (contract_logic 1
      ⟨.ChangeProductionSystem (.ModifyTypes (some []) none), true⟩
      (emptyDoc 4294967295)).state.version = 0 := rfl
  rw [h0] at h
  simp [emptyDoc] at h

/-- C9: a per-unit-process update whose inputs and outputs sub-batches are
both absent is rejected immediately with the no-inputs/outputs error and the
unit process is untouched, regardless of the properties sub-batch — so a
properties-only registration is impossible. -/
theorem c9_properties_only_registration_rejected (f : Nat)
    (self : UnitProcess) (unit : UnitData) (ct : SchemaMap)
    (hi : unit.inputs = none) (ho : unit.outputs = none) :
    UnitProcess.register_data f self unit ct =
      (self, some (.cannotRegisterNoInputsOutputs unit.name)) := by
  unfold UnitProcess.register_data
  rw [if_pos ⟨by simp [hi], by simp [ho]⟩]

/-- Witness for C9 with a non-empty properties sub-batch supplied. -/
theorem c9_properties_only_registration_rejected_witness :
    UnitProcess.register_data 1 ⟨"u", [], [], []⟩
      ⟨"u", none, none, some [⟨"p", "String", .str "v"⟩]⟩ [] =
      (⟨"u", [], [], []⟩, some (.cannotRegisterNoInputsOutputs "u")) :=
  c9_properties_only_registration_rejected 1 ⟨"u", [], [], []⟩
    ⟨"u", none, none, some [⟨"p", "String", .str "v"⟩]⟩ [] rfl rfl

/-- C7: the definition-time half of the claim holds — a slot definition with
targets present is rejected — but the registration half is refuted by the
code: Data::register_data inspects the slot's OLD stored targets for empty
fields and then overwrites them with the incoming targets without
validating those, so a registration supplying a Target whose three fields
are all empty succeeds and the empty-field target is stored in the
document. -/
theorem c7_targets_bug :
    (∀ (f : Nat) (self : Data) (ct : SchemaMap),
      self.targets.isSome = true →
      Data.check_data f self ct =
        .error (.targetsSetInDefinition self.name)) ∧
    (Data.register_data 1 ⟨"x", "String", none, .str "a", none⟩
        (Data.fromRegister ⟨"x", "String", .str "b", some [⟨"", "", ""⟩]⟩)
        [] =
      (⟨"x", "String", none, .str "b", some [⟨"", "", ""⟩]⟩, none)) := by
  constructor
  · intro f self ct h
    unfold Data.check_data
    rw [if_pos h]
  · simp [Data.register_data, Data.fromRegister, register_data_element,
      lookupKey, Value.asStr]

/-- Witness for C7's universally quantified half at a concrete definition
with targets present. -/
theorem c7_targets_bug_witness :
    Data.check_data 1 ⟨"d", "String", none, .str "a", some []⟩ [] =
      .error (.targetsSetInDefinition "d") :=
  c7_targets_bug.1 1 ⟨"d", "String", none, .str "a", some []⟩ [] rfl

/-- Data::register_data never changes the slot's name. -/
theorem Data.register_data_name (f : Nat) (self data : Data)
    (ct : SchemaMap) :
    (Data.register_data f self data ct).1.name = self.name := by
  unfold Data.register_data
  cases register_data_element f self.name self.type_name ct data.name
      data.type_name data.content with
  | error e => rfl
  | ok u =>
    cases self.targets with
    | none => rfl
    | some targets =>
      by_cases h : Target.anyEmptyField targets = true
      · simp only [h, if_true]
      · simp only [h, Bool.false_eq_true, if_false]

/-- A positive application count in the entry loop exhibits an entry whose
name matches the slot. -/
theorem Data.register_entries_pos (f : Nat) (slot : Data)
    (entries : List RegisterData) (ct : SchemaMap) :
    0 < (Data.register_entries f slot entries ct).1.2 →
    ∃ e ∈ entries, slot.name = e.name := by
  induction entries generalizing slot with
  | nil =>
    intro h
    simp [Data.register_entries] at h
  | cons e rest ih =>
    intro h
    by_cases hname : slot.name = e.name
    · exact ⟨e, List.mem_cons_self _ _, hname⟩
    · unfold Data.register_entries at h
      rw [if_neg hname] at h
      obtain ⟨e', he', hn⟩ := ih slot h
      exact ⟨e', List.mem_cons_of_mem _ he', hn⟩

/-- A positive total update count in the slot loop exhibits a slot/entry
pair with matching names. -/
theorem Data.register_slots_pos (f : Nat) (slots : List Data)
    (entries : List RegisterData) (ct : SchemaMap) :
    0 < (Data.register_slots f slots entries ct).1.2 →
    ∃ sl ∈ slots, ∃ e ∈ entries, sl.name = e.name := by
  induction slots with
  | nil =>
    intro h
    simp [Data.register_slots] at h
  | cons slot rest ih =>
    intro h
    unfold Data.register_slots at h
    rcases hre : Data.register_entries f slot entries ct with ⟨⟨slot', n⟩, errE⟩
    rw [hre] at h
    cases errE with
    | some e =>
      simp only at h
      exact ⟨slot, List.mem_cons_self _ _,
        Data.register_entries_pos f slot entries ct (by rw [hre]; exact h)⟩
    | none =>
      rcases hrs : Data.register_slots f rest entries ct with ⟨⟨rest', m⟩, errR⟩
      rw [hrs] at h
      simp only at h
      by_cases hn : 0 < n
      · exact ⟨slot, List.mem_cons_self _ _,
          Data.register_entries_pos f slot entries ct (by rw [hre]; exact hn)⟩
      · have hm : 0 < m := by omega
        obtain ⟨sl, hsl, hex⟩ := ih (by rw [hrs]; exact hm)
        exact ⟨sl, List.mem_cons_of_mem _ hsl, hex⟩

/-- Property analogue of Data.register_entries_pos. -/
theorem props_register_entries_pos (f : Nat) (slot : Properties)
    (entries : List Properties) (ct : SchemaMap) :
    0 < (Properties.register_entries f slot entries ct).1.2 →
    ∃ e ∈ entries, slot.name = e.name := by
  induction entries generalizing slot with
  | nil =>
    intro h
    simp [Properties.register_entries] at h
  | cons e rest ih =>
    intro h
    by_cases hname : slot.name = e.name
    · exact ⟨e, List.mem_cons_self _ _, hname⟩
    · unfold Properties.register_entries at h
      rw [if_neg hname] at h
      obtain ⟨e', he', hn⟩ := ih slot h
      exact ⟨e', List.mem_cons_of_mem _ he', hn⟩

/-- Property analogue of Data.register_slots_pos. -/
theorem props_register_slots_pos (f : Nat) (slots : List Properties)
    (entries : List Properties) (ct : SchemaMap) :
    0 < (Properties.register_slots f slots entries ct).1.2 →
    ∃ sl ∈ slots, ∃ e ∈ entries, sl.name = e.name := by
  induction slots with
  | nil =>
    intro h
    simp [Properties.register_slots] at h
  | cons slot rest ih =>
    intro h
    unfold Properties.register_slots at h
    rcases hre : Properties.register_entries f slot entries ct with
      ⟨⟨slot', n⟩, errE⟩
    rw [hre] at h
    cases errE with
    | some e =>
      simp only at h
      exact ⟨slot, List.mem_cons_self _ _,
        props_register_entries_pos f slot entries ct
          (by rw [hre]; exact h)⟩
    | none =>
      rcases hrs : Properties.register_slots f rest entries ct with
        ⟨⟨rest', m⟩, errR⟩
      rw [hrs] at h
      simp only at h
      by_cases hn : 0 < n
      · exact ⟨slot, List.mem_cons_self _ _,
          props_register_entries_pos f slot entries ct
            (by rw [hre]; exact hn)⟩
      · have hm : 0 < m := by omega
        obtain ⟨sl, hsl, hex⟩ := ih (by rw [hrs]; exact hm)
        exact ⟨sl, List.mem_cons_of_mem _ hsl, hex⟩

/-- UnitProcess::register_data never changes the process name, and a
successful update requires each supplied sub-batch (inputs, outputs,
properties) to be non-empty and to address at least one existing slot of
the process by name. -/
theorem UnitProcess.register_data_spec (f : Nat) (self : UnitProcess)
    (unit : UnitData) (ct : SchemaMap) :
    (UnitProcess.register_data f self unit ct).1.name = self.name ∧
    ((UnitProcess.register_data f self unit ct).2 = none →
      (∀ entries, unit.inputs = some entries →
        entries ≠ [] ∧ ∃ sl ∈ self.inputs, ∃ e ∈ entries,
          sl.name = e.name) ∧
      (∀ entries, unit.outputs = some entries →
        entries ≠ [] ∧ ∃ sl ∈ self.outputs, ∃ e ∈ entries,
          sl.name = e.name) ∧
      (∀ entries, unit.properties = some entries →
        entries ≠ [] ∧ ∃ sl ∈ self.properties, ∃ e ∈ entries,
          sl.name = e.name)) := by
  unfold UnitProcess.register_data
  by_cases h0 : unit.inputs.isNone = true ∧ unit.outputs.isNone = true
  · rw [if_pos h0]
    exact ⟨rfl, fun h => Option.noConfusion h⟩
  rw [if_neg h0]
  rcases hin : unit.inputs with _ | entsI
  · -- no inputs sub-batch
    simp only [hin]
    rcases hout : unit.outputs with _ | entsO
    · exact absurd ⟨by simp [hin], by simp [hout]⟩ h0
    rcases entsO with _ | ⟨o1, os1⟩
    · simp only [hout]
      constructor
      · trivial
      · first
          | exact fun h => Option.noConfusion h
          | exact fun h => h.elim
          | (intro h; simp at h)
    rcases hrsO : Data.register_slots f self.outputs (o1 :: os1) ct with
      ⟨⟨outputs', nO⟩, errO⟩
    cases errO with
    | some e =>
      simp only [hout, hrsO]
      constructor
      · trivial
      · first
          | exact fun h => Option.noConfusion h
          | exact fun h => h.elim
          | (intro h; simp at h)
    | none =>
      by_cases hnO : nO ≠ (o1 :: os1).length
      · simp only [hout, hrsO]
        rw [if_pos hnO]
        constructor
        · trivial
        · first
            | exact fun h => Option.noConfusion h
            | exact fun h => h.elim
            | (intro h; simp at h)
      have hposO : 0 < nO := by
        rw [not_not.mp hnO]
        exact Nat.succ_pos _
      have hexO := Data.register_slots_pos f self.outputs (o1 :: os1) ct
        (by rw [hrsO]; exact hposO)
      simp only [hout, hrsO]
      rw [if_neg hnO]
      try dsimp only
      rcases hprop : unit.properties with _ | entsP
      · simp only [hprop]
        refine ⟨by trivial, ?_⟩
        (first
            | refine fun _ => ⟨?_, ?_, ?_⟩
            | refine ⟨?_, ?_, ?_⟩) <;>
          · intro entries heq
            first
              | exact Option.noConfusion heq
              | (obtain rfl := Option.some.inj heq
                 refine ⟨by simp, ?_⟩
                 first
                   | exact hexO)
      rcases entsP with _ | ⟨p1, ps1⟩
      · simp only [hprop]
        constructor
        · trivial
        · first
            | exact fun h => Option.noConfusion h
            | exact fun h => h.elim
            | (intro h; simp at h)
      rcases hrsP : Properties.register_slots f self.properties (p1 :: ps1)
          ct with ⟨⟨props', nP⟩, errP⟩
      cases errP with
      | some e =>
        simp only [hprop, hrsP]
        constructor
        · trivial
        · first
            | exact fun h => Option.noConfusion h
            | exact fun h => h.elim
            | (intro h; simp at h)
      | none =>
        by_cases hnP : nP ≠ (p1 :: ps1).length
        · simp only [hprop, hrsP]
          rw [if_pos hnP]
          constructor
          · trivial
          · first
              | exact fun h => Option.noConfusion h
              | exact fun h => h.elim
              | (intro h; simp at h)
        have hposP : 0 < nP := by
          rw [not_not.mp hnP]
          exact Nat.succ_pos _
        have hexP := props_register_slots_pos f self.properties
          (p1 :: ps1) ct (by rw [hrsP]; exact hposP)
        simp only [hprop, hrsP]
        rw [if_neg hnP]
        refine ⟨by trivial, ?_⟩
        (first
            | refine fun _ => ⟨?_, ?_, ?_⟩
            | refine ⟨?_, ?_, ?_⟩) <;>
          · intro entries heq
            first
              | exact Option.noConfusion heq
              | (obtain rfl := Option.some.inj heq
                 refine ⟨by simp, ?_⟩
                 first
                   | exact hexO
                   | exact hexP)
  · -- inputs sub-batch supplied
    rcases entsI with _ | ⟨e1, es1⟩
    · simp only [hin]
      constructor
      · trivial
      · first
          | exact fun h => Option.noConfusion h
          | exact fun h => h.elim
          | (intro h; simp at h)
    rcases hrsI : Data.register_slots f self.inputs (e1 :: es1) ct with
      ⟨⟨inputs', nI⟩, errI⟩
    cases errI with
    | some e =>
      simp only [hin, hrsI]
      constructor
      · trivial
      · first
          | exact fun h => Option.noConfusion h
          | exact fun h => h.elim
          | (intro h; simp at h)
    | none =>
      by_cases hnI : nI ≠ (e1 :: es1).length
      · simp only [hin, hrsI]
        rw [if_pos hnI]
        constructor
        · trivial
        · first
            | exact fun h => Option.noConfusion h
            | exact fun h => h.elim
            | (intro h; simp at h)
      have hposI : 0 < nI := by
        rw [not_not.mp hnI]
        exact Nat.succ_pos _
      have hexI := Data.register_slots_pos f self.inputs (e1 :: es1) ct
        (by rw [hrsI]; exact hposI)
      simp only [hin, hrsI]
      rw [if_neg hnI]
      try dsimp only
      rcases hout : unit.outputs with _ | entsO
      · simp only [hout]
        rcases hprop : unit.properties with _ | entsP
        · simp only [hprop]
          refine ⟨by trivial, ?_⟩
          (first
              | refine fun _ => ⟨?_, ?_, ?_⟩
              | refine ⟨?_, ?_, ?_⟩) <;>
            · intro entries heq
              first
                | exact Option.noConfusion heq
                | (obtain rfl := Option.some.inj heq
                   refine ⟨by simp, ?_⟩
                   first
                     | exact hexI)
        rcases entsP with _ | ⟨p1, ps1⟩
        · simp only [hprop]
          constructor
          · trivial
          · first
              | exact fun h => Option.noConfusion h
              | exact fun h => h.elim
              | (intro h; simp at h)
        rcases hrsP : Properties.register_slots f self.properties (p1 :: ps1)
            ct with ⟨⟨props', nP⟩, errP⟩
        cases errP with
        | some e =>
          simp only [hprop]
          try dsimp only
          rw [hrsP]
          try dsimp only
          constructor
          · trivial
          · first
              | exact fun h => Option.noConfusion h
              | exact fun h => h.elim
              | (intro h; simp at h)
        | none =>
          by_cases hnP : nP ≠ (p1 :: ps1).length
          · simp only [hprop]
            try dsimp only
            rw [hrsP]
            try dsimp only
            rw [if_pos hnP]
            constructor
            · trivial
            · first
                | exact fun h => Option.noConfusion h
                | exact fun h => h.elim
                | (intro h; simp at h)
          have hposP : 0 < nP := by
            rw [not_not.mp hnP]
            exact Nat.succ_pos _
          have hexP := props_register_slots_pos f self.properties
            (p1 :: ps1) ct (by rw [hrsP]; exact hposP)
          simp only [hprop]
          try dsimp only
          rw [hrsP]
          try dsimp only
          rw [if_neg hnP]
          refine ⟨by trivial, ?_⟩
          (first
              | refine fun _ => ⟨?_, ?_, ?_⟩
              | refine ⟨?_, ?_, ?_⟩) <;>
            · intro entries heq
              first
                | exact Option.noConfusion heq
                | (obtain rfl := Option.some.inj heq
                   refine ⟨by simp, ?_⟩
                   first
                     | exact hexI
                     | exact hexP)
      rcases entsO with _ | ⟨o1, os1⟩
      · simp only [hout]
        constructor
        · trivial
        · first
            | exact fun h => Option.noConfusion h
            | exact fun h => h.elim
            | (intro h; simp at h)
      rcases hrsO : Data.register_slots f self.outputs (o1 :: os1) ct with
        ⟨⟨outputs', nO⟩, errO⟩
      cases errO with
      | some e =>
        simp only [hout]
        try dsimp only
        rw [hrsO]
        try dsimp only
        constructor
        · trivial
        · first
            | exact fun h => Option.noConfusion h
            | exact fun h => h.elim
            | (intro h; simp at h)
      | none =>
        by_cases hnO : nO ≠ (o1 :: os1).length
        · simp only [hout]
          try dsimp only
          rw [hrsO]
          try dsimp only
          rw [if_pos hnO]
          constructor
          · trivial
          · first
              | exact fun h => Option.noConfusion h
              | exact fun h => h.elim
              | (intro h; simp at h)
        have hposO : 0 < nO := by
          rw [not_not.mp hnO]
          exact Nat.succ_pos _
        have hexO := Data.register_slots_pos f self.outputs (o1 :: os1) ct
          (by rw [hrsO]; exact hposO)
        simp only [hout]
        try dsimp only
        rw [hrsO]
        try dsimp only
        rw [if_neg hnO]
        try dsimp only
        rcases hprop : unit.properties with _ | entsP
        · simp only [hprop]
          refine ⟨by trivial, ?_⟩
          (first
              | refine fun _ => ⟨?_, ?_, ?_⟩
              | refine ⟨?_, ?_, ?_⟩) <;>
            · intro entries heq
              first
                | exact Option.noConfusion heq
                | (obtain rfl := Option.some.inj heq
                   refine ⟨by simp, ?_⟩
                   first
                     | exact hexI
                     | exact hexO)
        rcases entsP with _ | ⟨p1, ps1⟩
        · simp only [hprop]
          constructor
          · trivial
          · first
              | exact fun h => Option.noConfusion h
              | exact fun h => h.elim
              | (intro h; simp at h)
        rcases hrsP : Properties.register_slots f self.properties (p1 :: ps1)
            ct with ⟨⟨props', nP⟩, errP⟩
        cases errP with
        | some e =>
          simp only [hprop]
          try dsimp only
          rw [hrsP]
          try dsimp only
          constructor
          · trivial
          · first
              | exact fun h => Option.noConfusion h
              | exact fun h => h.elim
              | (intro h; simp at h)
        | none =>
          by_cases hnP : nP ≠ (p1 :: ps1).length
          · simp only [hprop]
            try dsimp only
            rw [hrsP]
            try dsimp only
            rw [if_pos hnP]
            constructor
            · trivial
            · first
                | exact fun h => Option.noConfusion h
                | exact fun h => h.elim
                | (intro h; simp at h)
          have hposP : 0 < nP := by
            rw [not_not.mp hnP]
            exact Nat.succ_pos _
          have hexP := props_register_slots_pos f self.properties
            (p1 :: ps1) ct (by rw [hrsP]; exact hposP)
          simp only [hprop]
          try dsimp only
          rw [hrsP]
          try dsimp only
          rw [if_neg hnP]
          refine ⟨by trivial, ?_⟩
          (first
              | refine fun _ => ⟨?_, ?_, ?_⟩
              | refine ⟨?_, ?_, ?_⟩) <;>
            · intro entries heq
              first
                | exact Option.noConfusion heq
                | (obtain rfl := Option.some.inj heq
                   refine ⟨by simp, ?_⟩
                   first
                     | exact hexI
                     | exact hexO
                     | exact hexP)

/-- find_and_register reports a change exactly when some unit process in the
list bears the update's name. -/
theorem find_and_register_change (f : Nat) (ups : List UnitProcess)
    (d : UnitData) (ct : SchemaMap) :
    (find_and_register f ups d ct).1.2 =
      ups.any (fun x => x.name = d.name) := by
  induction ups with
  | nil => rfl
  | cons up rest ih =>
    unfold find_and_register
    by_cases h : up.name = d.name
    · rw [if_pos h]
      rcases hrd : UnitProcess.register_data f up d ct with ⟨up', e⟩
      simp [h]
    · rw [if_neg h]
      rcases hfr : find_and_register f rest d ct with ⟨⟨rest', ch⟩, e⟩
      rw [hfr] at ih
      simpa [h] using ih

/-- find_and_register preserves the list of unit-process names. -/
theorem find_and_register_names (f : Nat) (ups : List UnitProcess)
    (d : UnitData) (ct : SchemaMap) :
    ((find_and_register f ups d ct).1.1).map UnitProcess.name =
      ups.map UnitProcess.name := by
  induction ups with
  | nil => rfl
  | cons up rest ih =>
    unfold find_and_register
    by_cases h : up.name = d.name
    · rw [if_pos h]
      rcases hrd : UnitProcess.register_data f up d ct with ⟨up', e⟩
      have hn := (UnitProcess.register_data_spec f up d ct).1
      rw [hrd] at hn
      have hn' : up'.name = up.name := hn
      simp [hn']
    · rw [if_neg h]
      rcases hfr : find_and_register f rest d ct with ⟨⟨rest', ch⟩, e⟩
      rw [hfr] at ih
      simp at ih
      simp [ih]

/-- If some update in the batch names a unit process absent from the
document, the batch loop reports an error (possibly an earlier one). -/
theorem register_data_batch_err_of_missing (f : Nat)
    (batch : List UnitData) (d : UnitData) (hd : d ∈ batch) :
    ∀ s : ProductionSystem, (∀ up ∈ s.unit_process, up.name ≠ d.name) →
      (register_data_batch f s batch).2.isSome = true := by
  induction batch with
  | nil => cases hd
  | cons b tl ih =>
    intro s hmiss
    unfold register_data_batch
    rcases List.mem_cons.mp hd with heq | hmem
    · subst heq
      have hch : (find_and_register f s.unit_process d s.custom_types).1.2 =
          false := by
        rw [find_and_register_change]
        simp only [List.any_eq_false, decide_eq_true_eq]
        intro x hx
        exact hmiss x hx
      rcases hfr : find_and_register f s.unit_process d s.custom_types with
        ⟨⟨ups', ch⟩, err⟩
      rw [hfr] at hch
      simp only at hch
      subst hch
      cases err with
      | none => simp [hfr]
      | some e => simp [hfr]
    · rcases hfr : find_and_register f s.unit_process b s.custom_types with
        ⟨⟨ups', ch⟩, err⟩
      have hnames := find_and_register_names f s.unit_process b s.custom_types
      rw [hfr] at hnames
      simp only at hnames
      cases ch with
      | false =>
        cases err with
        | none => simp
        | some e => simp
      | true =>
        cases err with
        | some e => simp
        | none =>
          apply ih hmem
          intro up hup
          have hmem2 : up.name ∈ ups'.map UnitProcess.name :=
            List.mem_map_of_mem _ hup
          rw [hnames] at hmem2
          obtain ⟨up0, hup0, hname⟩ := List.mem_map.mp hmem2
          rw [← hname]
          exact hmiss up0 hup0

/-- C8 (amended): an update naming a unit process absent from the document
makes the whole RegisterData event fail (success is false) and the
committed document is unchanged — though the returned draft may already
carry updates applied to other processes earlier in the batch (see the
counterexample); and a successfully applied per-process update requires
each supplied inputs/outputs/properties sub-batch to be non-empty and to
address at least one existing slot of that process by name. -/
theorem c8_register_data_semantics (f : Nat) (ctx : Context)
    (s : ProductionSystem) (batch : List UnitData)
    (hev : ctx.event = .RegisterData batch) :
    (∀ d ∈ batch, (∀ up ∈ s.unit_process, up.name ≠ d.name) →
      (contract_logic f ctx s).success = false ∧
      committed_document s (contract_logic f ctx s) = s) ∧
    (∀ (self : UnitProcess) (unit : UnitData) (ct : SchemaMap),
      (UnitProcess.register_data f self unit ct).2 = none →
      (∀ entries, unit.inputs = some entries →
        entries ≠ [] ∧ ∃ sl ∈ self.inputs, ∃ e ∈ entries,
          sl.name = e.name) ∧
      (∀ entries, unit.outputs = some entries →
        entries ≠ [] ∧ ∃ sl ∈ self.outputs, ∃ e ∈ entries,
          sl.name = e.name) ∧
      (∀ entries, unit.properties = some entries →
        entries ≠ [] ∧ ∃ sl ∈ self.properties, ∃ e ∈ entries,
          sl.name = e.name)) := by
  constructor
  · intro d hd hmiss
    have hsucc : (contract_logic f ctx s).success = false := by
      unfold contract_logic
      simp only [hev]
      have h1 : (Events.RegisterData batch).isInit = false := rfl
      simp only [h1, Bool.false_eq_true, if_false]
      by_cases hv : s.version = 0
      · rw [if_pos hv]
      · rw [if_neg hv]
        unfold contract_logic_run
        have h2 : (Events.RegisterData batch).isChange = false := rfl
        simp only [h2, Bool.false_eq_true, if_false]
        simp only [dispatch_event]
        unfold apply_register_data
        rw [if_neg hv]
        cases batch with
        | nil => cases hd
        | cons b tl =>
          try dsimp only
          have herr := register_data_batch_err_of_missing f (b :: tl) d hd
            s hmiss
          rcases hq : register_data_batch f s (b :: tl) with ⟨s', errB⟩
          rw [hq] at herr
          cases errB with
          | none => simp at herr
          | some eB => rfl
    exact ⟨hsucc, by simp [committed_document, hsucc]⟩
  · intro self unit ct hok
    exact (UnitProcess.register_data_spec f self unit ct).2 hok

/-- Witness for C8 at a concrete batch naming an unknown process on a
document with no unit processes. -/
theorem c8_register_data_semantics_witness :
    (contract_logic 1
      ⟨.RegisterData
        [⟨"ghost", none, some [⟨"i", "String", .str "b", none⟩], none⟩],
        false⟩
      ⟨"ps", [], 1, [], []⟩).success = false :=
  ((c8_register_data_semantics 1
      ⟨.RegisterData
        [⟨"ghost", none, some [⟨"i", "String", .str "b", none⟩], none⟩],
        false⟩
      ⟨"ps", [], 1, [], []⟩
      [⟨"ghost", none, some [⟨"i", "String", .str "b", none⟩], none⟩]
      rfl).1
    ⟨"ghost", none, some [⟨"i", "String", .str "b", none⟩], none⟩
    (List.mem_cons_self _ _)
    (fun up hup => absurd hup (List.not_mem_nil up))).1

/-- C8 counterexample: a batch whose first update validly modifies process
"u" and whose second names the absent process "missing" is rejected as a
whole (success false, non-empty error), but the returned draft is NOT the
unchanged input document: the first update was already applied in place
("u"'s input content is the new "b", not the original "a"). -/
theorem c8_counterexample :
    contract_logic 1
      ⟨.RegisterData
        [⟨"u", none, some [⟨"i", "String", .str "b", none⟩], none⟩,
         ⟨"missing", none, some [⟨"i", "String", .str "c", none⟩], none⟩],
        false⟩
      ⟨"ps", [], 1,
        [⟨"u", [⟨"i", "String", none, .str "a", none⟩], [], []⟩], []⟩ =
      { state := ⟨"ps", [], 1,
          [⟨"u", [⟨"i", "String", none, .str "b", none⟩], [], []⟩], []⟩,
        success := false,
        error := some (.unitProcessNotFound "missing") } ∧
    (contract_logic 1
      ⟨.RegisterData
        [⟨"u", none, some [⟨"i", "String", .str "b", none⟩], none⟩,
         ⟨"missing", none, some [⟨"i", "String", .str "c", none⟩], none⟩],
        false⟩
      ⟨"ps", [], 1,
        [⟨"u", [⟨"i", "String", none, .str "a", none⟩], [], []⟩],
        []⟩).state ≠
      ⟨"ps", [], 1,
        [⟨"u", [⟨"i", "String", none, .str "a", none⟩], [], []⟩], []⟩ := by
  have heq : contract_logic 1
      ⟨.RegisterData
        [⟨"u", none, some [⟨"i", "String", .str "b", none⟩], none⟩,
         ⟨"missing", none, some [⟨"i", "String", .str "c", none⟩], none⟩],
        false⟩
      ⟨"ps", [], 1,
        [⟨"u", [⟨"i", "String", none, .str "a", none⟩], [], []⟩], []⟩ =
      { state := ⟨"ps", [], 1,
          [⟨"u", [⟨"i", "String", none, .str "b", none⟩], [], []⟩], []⟩,
        success := false,
        error := some (.unitProcessNotFound "missing") } := by
    simp [contract_logic, contract_logic_run, Events.isInit, Events.isChange,
      dispatch_event, apply_register_data, register_data_batch,
      find_and_register, UnitProcess.register_data, Data.register_slots,
      Data.register_entries, Data.register_data, Data.fromRegister,
      register_data_element, lookupKey, Value.asStr]
  refine ⟨heq, ?_⟩
  rw [heq]
  intro h
  simp at h
